import Mathlib

/-!
Verification development for the wine-chat assistant core.

Python strings are modelled as `List Char`.  Each definition below embeds one
function of the source tree (`sql_guard.py`, `public_records_db.py`,
`assistant.py`, `app.py`); the doc comment of every definition names the
source symbol it embeds.  Regular expressions used by the source are embedded
as dedicated matching functions that realise exactly the one pattern in
question (leftmost search, greedy repetition with backtracking where the
pattern needs it).  Python `int()` is embedded as a fallible conversion in the
`Except` monad, so that totality of the reference resolver is a theorem rather
than an artifact of the embedding.
-/

deriving instance DecidableEq for Except

namespace WineChat

/-- Python strings are modelled as lists of characters. -/
abbrev Str := List Char

/-- Shorthand turning a Lean string literal into the `List Char` model. -/
def toStr (s : String) : Str := s.toList

/-- Characters removed by Python `str.strip()` with no argument
(the ASCII whitespace characters; the rarely used further Unicode
whitespace is out of scope of the claims). -/
def pyIsSpace (c : Char) : Bool :=
  c = ' ' || c = '\t' || c = '\n' || c = '\r' || c = '\x0b' || c = '\x0c'

/-- Python `str.lstrip()`. -/
def pyLStrip (s : Str) : Str := s.dropWhile pyIsSpace

/-- Python `str.rstrip()`. -/
def pyRStrip (s : Str) : Str := (s.reverse.dropWhile pyIsSpace).reverse

/-- Python `str.strip()`. -/
def pyStrip (s : Str) : Str := pyRStrip (pyLStrip s)

/-- Python `str.rstrip(chars)` for a one-character `chars` argument. -/
def pyRStripChar (c : Char) (s : Str) : Str :=
  (s.reverse.dropWhile (fun d => d = c)).reverse

/-- Python `str.strip(chars)`: drop characters of `cs` from both ends. -/
def pyStripChars (cs : List Char) (s : Str) : Str :=
  ((s.dropWhile cs.contains).reverse.dropWhile cs.contains).reverse

/-- Python `x or ""` for an optional string `x` (`None` and the empty string
are falsy). -/
def pyOr1 (o : Option Str) : Str := o.getD []

/-- Python `a or b or ""` for two optional strings. -/
def pyOr2 (a b : Option Str) : Str :=
  match a with
  | some s => if s ≠ [] then s else pyOr1 b
  | none => pyOr1 b

/-- Truthiness of an optional string value (`None`, absent and `""` are
falsy). -/
def pyTruthyOpt (o : Option Str) : Bool :=
  match o with
  | some s => s ≠ []
  | none => false

/-- Python `str.lower()` restricted to the alphabets the source manipulates:
ASCII letters and the Cyrillic letters А..Я and Ё. -/
def pyLowerChar (c : Char) : Char :=
  if 'A' ≤ c ∧ c ≤ 'Z' then Char.ofNat (c.toNat + 32)
  else if 'А' ≤ c ∧ c ≤ 'Я' then Char.ofNat (c.toNat + 32)
  else if c = 'Ё' then 'ё'
  else c

/-- Python `str.lower()`. -/
def pyLower (s : Str) : Str := s.map pyLowerChar

/-- Word characters for the `\b` anchor of Python `re` (Unicode `\w`
restricted to the alphabets occurring in the source: ASCII alphanumerics,
underscore, and Cyrillic letters). -/
def isWordChar (c : Char) : Bool :=
  ('a' ≤ c && c ≤ 'z') || ('A' ≤ c && c ≤ 'Z') || ('0' ≤ c && c ≤ '9') ||
  c = '_' || ('а' ≤ c && c ≤ 'я') || ('А' ≤ c && c ≤ 'Я') || c = 'ё' || c = 'Ё'

/-- Left word-boundary test: the previous character (if any) is not a word
character. -/
def boundaryOk (prev : Option Char) : Bool :=
  match prev with
  | none => true
  | some c => !(isWordChar c)

/-- `\b` between a consumed character `a` and the next input character `b`
(end of input counts as a non-word character). -/
def wordBoundaryB (a : Char) (b : Option Char) : Bool :=
  isWordChar a != (match b with | some c => isWordChar c | none => false)

/-! ## sql_guard.py -/

/-- Helper for `_strip_comments` (sql_guard.py:27): the input after the first
block-comment close token, if one occurs. -/
def findBlockClose : Str → Option Str
  | [] => none
  | '*' :: '/' :: rest => some rest
  | _ :: rest => findBlockClose rest

/-- Embeds `re.sub(r"/\*.*?\*/", "", sql, flags=re.S)` (sql_guard.py:27): a
leftmost scan removing each non-greedy block comment; an unclosed `/*` has no
match and is kept verbatim.  The fuel equals the input length plus one; every
step consumes at least one character, so the fuel never runs out. -/
def stripBlockCommentsGo : Nat → Str → Str
  | 0, s => s
  | _ + 1, [] => []
  | fuel + 1, '/' :: '*' :: rest =>
    match findBlockClose rest with
    | some rest2 => stripBlockCommentsGo fuel rest2
    | none => '/' :: '*' :: rest
  | fuel + 1, c :: rest => c :: stripBlockCommentsGo fuel rest

/-- Embeds `re.sub(r"--[^\n]*", "", sql)` (sql_guard.py:28): remove from each
`--` to the end of the line, keeping the newline itself.  Fuel as above. -/
def stripLineCommentsGo : Nat → Str → Str
  | 0, s => s
  | _ + 1, [] => []
  | fuel + 1, '-' :: '-' :: rest =>
    stripLineCommentsGo fuel (rest.dropWhile (fun c => !(c = '\n')))
  | fuel + 1, c :: rest => c :: stripLineCommentsGo fuel rest

/-- Embeds `_strip_comments` (sql_guard.py:26-29): block comments are removed
first, then line comments. -/
def stripComments (sql : Str) : Str :=
  let s1 := stripBlockCommentsGo (sql.length + 1) sql
  stripLineCommentsGo (s1.length + 1) s1

/-- The rejection cases of `SQLValidationError` raised by sql_guard.py; the
keyword case carries the offending keyword interpolated into the message. -/
inductive SQLError
  | emptyQuery
  | multiStatement
  | notSelect
  | forbiddenKeyword (kw : Str)
deriving DecidableEq, Repr

/-- The exact message text each `SQLValidationError` is raised with
(sql_guard.py:35,38,47,51). -/
def SQLError.message : SQLError → Str
  | .emptyQuery => toStr "Пустой SQL-запрос."
  | .multiStatement => toStr "Разрешен только один SQL-запрос."
  | .notSelect => toStr "Разрешены только SELECT/CTE-запросы."
  | .forbiddenKeyword kw => toStr "Запрещенное ключевое слово в SQL: " ++ kw

/-- Embeds `_normalize_sql` (sql_guard.py:32-39): strip comments and
whitespace, reject the empty query, strip all trailing `;` and surrounding
whitespace, reject if a `;` remains. -/
def normalizeSql (sql : Str) : Except SQLError Str :=
  let s1 := pyStrip (stripComments sql)
  if s1 = [] then .error .emptyQuery
  else
    let s2 := pyStrip (pyRStripChar ';' s1)
    if s2.contains ';' then .error .multiStatement
    else .ok s2

/-- Embeds `FORBIDDEN_KEYWORDS` (sql_guard.py:8-23), in source order. -/
def FORBIDDEN_KEYWORDS : List Str :=
  [toStr "insert", toStr "update", toStr "delete", toStr "drop",
   toStr "alter", toStr "create", toStr "attach", toStr "detach",
   toStr "pragma", toStr "vacuum", toStr "reindex", toStr "analyze",
   toStr "replace", toStr "truncate"]

/-- The needle matches at the head of `s` as a whole word: `s` starts with
`kw` and the character following it (if any) is not a word character.  All
denylist keywords consist of word characters, so `\bkw\b` holds at a position
exactly under this head test plus the left-boundary test. -/
def wholeWordAtHead (kw s : Str) : Bool :=
  kw.isPrefixOf s &&
    (match (s.drop kw.length).head? with
     | none => true
     | some c => !(isWordChar c))

/-- Scan for `\bkw\b` carrying the previous character for the left
boundary. -/
def wholeWordContainsGo (kw : Str) : Option Char → Str → Bool
  | prev, [] => boundaryOk prev && wholeWordAtHead kw []
  | prev, c :: rest =>
    (boundaryOk prev && wholeWordAtHead kw (c :: rest)) ||
      wholeWordContainsGo kw (some c) rest

/-- Embeds `re.search(rf"\b{keyword}\b", lower)` being non-`None`
(sql_guard.py:50) for a keyword made of word characters. -/
def wholeWordContains (hay kw : Str) : Bool :=
  wholeWordContainsGo kw none hay

/-- Embeds `validate_read_only_sql` (sql_guard.py:42-53). -/
def validateReadOnlySql (sql : Str) : Except SQLError Str :=
  match normalizeSql sql with
  | .error e => .error e
  | .ok normalized =>
    let lower := pyLower normalized
    if !((toStr "select ").isPrefixOf lower || (toStr "with ").isPrefixOf lower) then
      .error .notSelect
    else
      match FORBIDDEN_KEYWORDS.find? (fun kw => wholeWordContains lower kw) with
      | some kw => .error (.forbiddenKeyword kw)
      | none => .ok normalized

/-- Decimal rendering of an integer, as Python `f"{max_rows}"` produces. -/
def intToStr (i : Int) : Str := (toString i).toList

/-- Embeds `enforce_limit` (sql_guard.py:56-59): clamp the cap to at least 1
and wrap the statement in the outer row-capped selection. -/
def enforceLimit (sql : Str) (maxRows : Int) : Str :=
  let cap : Int := max 1 maxRows
  toStr "SELECT * FROM (" ++ sql ++ toStr ") AS _result LIMIT " ++ intToStr cap

/-- Embeds `build_safe_sql` (sql_guard.py:62-64). -/
def buildSafeSql (sql : Str) (maxRows : Int) : Except SQLError Str :=
  match validateReadOnlySql sql with
  | .error e => .error e
  | .ok v => .ok (enforceLimit v maxRows)

/-- The default `max_rows` of `WineDB.execute_safe_query` (db.py:94), the
caller of `build_safe_sql`. -/
def executeSafeQueryDefaultMaxRows : Int := 200

/-! ### Claims C1-C3 -/

/-- C1 (counterexample): the claim "every raw query containing a denylisted
keyword as a whole word is rejected with that keyword named" is false on the
code: in `"select 1 -- insert"` the keyword `insert` occurs as a whole word in
the raw query, yet `validate_read_only_sql` strips the comment first and
accepts the query, returning `"select 1"`. -/
theorem C1_raw_keyword_counterexample :
    wholeWordContains (pyLower (toStr "select 1 -- insert")) (toStr "insert") = true ∧
    validateReadOnlySql (toStr "select 1 -- insert") = .ok (toStr "select 1") := by
  constructor <;> decide

/-- C1 (amended): for every query whose normalized form (comments stripped,
whitespace and trailing terminators trimmed, single statement) passes the
SELECT/WITH prefix check, if the lower-cased normalized text contains any
denylisted keyword as a whole word then `validate_read_only_sql` rejects the
query with the `forbiddenKeyword` error naming a keyword that does occur as a
whole word (the first such keyword in denylist order); case-insensitivity
holds because the scan runs on the lower-cased text. -/
theorem C1_keyword_rejection (sql normalized : Str)
    (hn : normalizeSql sql = .ok normalized)
    (hp : ((toStr "select ").isPrefixOf (pyLower normalized) ||
           (toStr "with ").isPrefixOf (pyLower normalized)) = true)
    (kw : Str) (hkw : kw ∈ FORBIDDEN_KEYWORDS)
    (hww : wholeWordContains (pyLower normalized) kw = true) :
    ∃ kw2, kw2 ∈ FORBIDDEN_KEYWORDS ∧
      wholeWordContains (pyLower normalized) kw2 = true ∧
      validateReadOnlySql sql = .error (.forbiddenKeyword kw2) := by
  cases hfind : FORBIDDEN_KEYWORDS.find? (fun k => wholeWordContains (pyLower normalized) k) with
  | none =>
    exact absurd hww (by simpa using List.find?_eq_none.mp hfind kw hkw)
  | some kw2 =>
    refine ⟨kw2, List.mem_of_find?_eq_some hfind,
      by simpa using List.find?_some hfind, ?_⟩
    simp only [validateReadOnlySql, hn, hp, Bool.not_true, Bool.false_eq_true,
      if_false, hfind]

/-- Witness for C1: the single-statement query `"select insert"` passes
normalization and the prefix check, contains `insert` as a whole word, and is
rejected naming a matching keyword. -/
theorem C1_keyword_rejection_witness :
    ∃ kw2, kw2 ∈ FORBIDDEN_KEYWORDS ∧
      wholeWordContains (pyLower (toStr "select insert")) kw2 = true ∧
      validateReadOnlySql (toStr "select insert") = .error (.forbiddenKeyword kw2) :=
  C1_keyword_rejection (toStr "select insert") (toStr "select insert")
    (by decide) (by decide) (toStr "insert") (by decide) (by decide)

/-- C2: whenever `build_safe_sql` succeeds, the produced text is the
validated statement wrapped exactly once in the outer row-capped selection
`SELECT * FROM (<validated>) AS _result LIMIT <cap>` with the cap equal to
the caller-supplied `max_rows` clamped to at least 1; at the default
`max_rows` of `WineDB.execute_safe_query` (200) the cap is 200.  The input is
arbitrary, so in particular a statement carrying its own LIMIT clause is
still wrapped. -/
theorem C2_wrap_once (sql : Str) (maxRows : Int) (out : Str)
    (h : buildSafeSql sql maxRows = .ok out) :
    ∃ v, validateReadOnlySql sql = .ok v ∧
      out = toStr "SELECT * FROM (" ++ v ++ toStr ") AS _result LIMIT " ++
        intToStr (max 1 maxRows) ∧
      buildSafeSql sql executeSafeQueryDefaultMaxRows =
        .ok (toStr "SELECT * FROM (" ++ v ++ toStr ") AS _result LIMIT " ++ toStr "200") := by
  unfold buildSafeSql at h ⊢
  match hv : validateReadOnlySql sql with
  | .error e => rw [hv] at h; exact absurd h (by simp)
  | .ok v =>
    rw [hv] at h
    refine ⟨v, rfl, ?_, ?_⟩
    · have : out = enforceLimit v maxRows := by
        simpa using h.symm
      rw [this]; rfl
    · rfl

/-- Witness for C2: a query that already carries its own `LIMIT 5` clause is
still wrapped in the outer bounded selection with cap 10. -/
theorem C2_wrap_once_witness :
    ∃ v, validateReadOnlySql (toStr "select * from wine_cards_wide limit 5") = .ok v ∧
      toStr "SELECT * FROM (select * from wine_cards_wide limit 5) AS _result LIMIT 10" =
        toStr "SELECT * FROM (" ++ v ++ toStr ") AS _result LIMIT " ++ intToStr (max 1 10) ∧
      buildSafeSql (toStr "select * from wine_cards_wide limit 5") executeSafeQueryDefaultMaxRows =
        .ok (toStr "SELECT * FROM (" ++ v ++ toStr ") AS _result LIMIT " ++ toStr "200") :=
  C2_wrap_once (toStr "select * from wine_cards_wide limit 5") 10
    (toStr "SELECT * FROM (select * from wine_cards_wide limit 5) AS _result LIMIT 10")
    (by decide)

/-- The spec-side reading of the multi-statement detector: trim exactly ONE
trailing statement terminator.  Modelled from the spec sentence "a residual
statement separator after trimming one trailing terminator" for comparison
against the source, which trims ALL trailing terminators. -/
def specTrimOneTrailingTerminator (s : Str) : Str :=
  match s.reverse with
  | ';' :: rest => rest.reverse
  | _ => s

/-- C3 (counterexample): the claim is false as stated: for `"select 1;;"` a
`;` remains after trimming one trailing terminator, so the claim requires a
multi-statement rejection, yet `validate_read_only_sql` strips ALL trailing
semicolons and accepts the query. -/
theorem C3_multi_statement_counterexample :
    (specTrimOneTrailingTerminator
        (pyStrip (stripComments (toStr "select 1;;")))).contains ';' = true ∧
    validateReadOnlySql (toStr "select 1;;") = .ok (toStr "select 1") := by
  constructor <;> decide

/-- C3 (amended): after stripping comments and trimming, for a non-empty
query text, validation rejects the query as multi-statement exactly when a
`;` remains after trimming ALL trailing terminators (and surrounding
whitespace); in particular every input in which a separator still divides two
statements after that trim is rejected rather than validated. -/
theorem C3_multi_statement (sql : Str)
    (h : pyStrip (stripComments sql) ≠ []) :
    validateReadOnlySql sql = .error .multiStatement ↔
      (pyStrip (pyRStripChar ';' (pyStrip (stripComments sql)))).contains ';' = true := by
  have hnorm : normalizeSql sql =
      (if (pyStrip (pyRStripChar ';' (pyStrip (stripComments sql)))).contains ';' then
        Except.error SQLError.multiStatement
      else Except.ok (pyStrip (pyRStripChar ';' (pyStrip (stripComments sql))))) := by
    unfold normalizeSql
    rw [if_neg h]
  cases hsemi : (pyStrip (pyRStripChar ';' (pyStrip (stripComments sql)))).contains ';' with
  | true =>
    rw [hsemi] at hnorm
    simp only [if_true] at hnorm
    simp [validateReadOnlySql, hnorm]
  | false =>
    rw [hsemi] at hnorm
    simp only [Bool.false_eq_true, if_false] at hnorm
    simp only [validateReadOnlySql, hnorm, Bool.false_eq_true, iff_false]
    split
    · simp
    · split <;> simp

/-- Witness for C3: `"select 1; select 2"` keeps its separator after the trim
and is rejected as multi-statement. -/
theorem C3_multi_statement_witness :
    pyStrip (stripComments (toStr "select 1; select 2")) ≠ [] ∧
    validateReadOnlySql (toStr "select 1; select 2") = .error .multiStatement :=
  ⟨by decide, (C3_multi_statement (toStr "select 1; select 2") (by decide)).mpr (by decide)⟩

/-! ## public_records_db.py -/

/-- The rejection cases of `PublicRecordError` raised by
`PublicRecordsDB.add_record` and its normalizers
(public_records_db.py:37,54,56,83). -/
inductive PublicRecordError
  | invalidRecordType
  | wineIdRequired
  | wineIdNotFound
  | contentRequired
deriving DecidableEq, Repr

/-- The exact message text each `PublicRecordError` is raised with. -/
def PublicRecordError.message : PublicRecordError → Str
  | .invalidRecordType => toStr "record_type должен быть \x27like\x27 или \x27note\x27."
  | .wineIdRequired => toStr "wine_id обязателен."
  | .wineIdNotFound => toStr "wine_id не найден в каталоге wine_cards_wide."
  | .contentRequired => toStr "Для record_type=\x27note\x27 поле content обязательно."

/-- A row of the `public_records` table as inserted by `add_record`
(public_records_db.py:88-94); the autoincrement id and timestamp are managed
by the storage engine and not part of the decision logic. -/
structure PublicRecord where
  user : Str
  record_type : Str
  content : Str
  wine_id : Str
deriving DecidableEq, Repr

/-- Embeds `PublicRecordsDB._normalize_record_type`
(public_records_db.py:33-38). -/
def normalizeRecordType (value : Str) : Except PublicRecordError Str :=
  let normalized := pyLower (pyStrip value)
  if normalized = toStr "like" ∨ normalized = toStr "note" then .ok normalized
  else .error .invalidRecordType

/-- Embeds `PublicRecordsDB._normalize_user` (public_records_db.py:40-45):
`None`, empty and whitespace-only users fall back to the guest identity. -/
def normalizeUser (value : Option Str) : Str :=
  let user := pyStrip (pyOr1 value)
  if user = [] then toStr "Гость" else user

/-- Embeds `PublicRecordsDB._normalize_content` (public_records_db.py:47-49). -/
def normalizeContent (value : Option Str) : Str := pyStrip (pyOr1 value)

/-- Embeds `PublicRecordsDB._normalize_wine_id` (public_records_db.py:51-57).
The catalog lookup `self.wine_db.wine_exists` is the storage collaborator,
passed as the function argument `wineExists`. -/
def normalizeWineId (wineExists : Str → Bool) (value : Str) :
    Except PublicRecordError Str :=
  let wineId := pyStrip value
  if wineId = [] then .error .wineIdRequired
  else if !wineExists wineId then .error .wineIdNotFound
  else .ok wineId

/-- Embeds the decision logic of `PublicRecordsDB.add_record`
(public_records_db.py:70-103): on success the returned record is the row the
`INSERT` stores (the SQLite read-back of the freshly inserted row returns
exactly the inserted values); every `raise` happens before the `INSERT`, so
an error means no record is inserted. -/
def addRecord (wineExists : Str → Bool) (user : Option Str) (recordType : Str)
    (content : Option Str) (wineId : Str) : Except PublicRecordError PublicRecord := do
  let normalizedUser := normalizeUser user
  let normalizedType ← normalizeRecordType recordType
  let normalizedContent := normalizeContent content
  let normalizedWineId ← normalizeWineId wineExists wineId
  if normalizedType = toStr "note" ∧ normalizedContent = [] then
    throw .contentRequired
  let normalizedContent :=
    if normalizedType = toStr "like" then
      (if normalizedContent = [] then toStr "1" else normalizedContent)
    else normalizedContent
  return { user := normalizedUser, record_type := normalizedType,
           content := normalizedContent, wine_id := normalizedWineId }

/-! ### Claims C4 and C10 -/

/-- C4: for every catalog predicate, every user and every existing wine id,
`add_record` with record type `note` and empty (or whitespace-only, or
missing) content raises the content-required error — hence inserts no record,
since the error is raised before the INSERT — while `add_record` with record
type `like` and the same empty content succeeds and stores the default
sentinel content `"1"`. -/
theorem C4_note_like_content (wineExists : Str → Bool) (user : Option Str)
    (content : Option Str) (wineId : Str)
    (hw : pyStrip wineId ≠ [])
    (hex : wineExists (pyStrip wineId) = true)
    (hc : pyStrip (pyOr1 content) = []) :
    addRecord wineExists user (toStr "note") content wineId = .error .contentRequired ∧
    addRecord wineExists user (toStr "like") content wineId =
      .ok { user := normalizeUser user, record_type := toStr "like",
            content := toStr "1", wine_id := pyStrip wineId } := by
  have hnote : normalizeRecordType (toStr "note") = .ok (toStr "note") := by decide
  have hlike : normalizeRecordType (toStr "like") = .ok (toStr "like") := by decide
  have hwid : normalizeWineId wineExists wineId = .ok (pyStrip wineId) := by
    unfold normalizeWineId
    rw [if_neg hw, hex]
    simp
  have hcontent : normalizeContent content = [] := hc
  constructor
  · simp only [addRecord, hnote, hwid, hcontent, bind, Except.bind]
    simp [throw, throwThe, MonadExceptOf.throw]
  · simp only [addRecord, hlike, hwid, hcontent, bind, Except.bind]
    rw [if_neg (by decide)]
    simp [pure, Except.pure]

/-- Witness for C4 at a concrete catalog, user and wine id with
whitespace-only content. -/
theorem C4_note_like_content_witness :
    addRecord (fun _ => true) (some (toStr "Анна")) (toStr "note")
        (some (toStr "  ")) (toStr "wine-1") = .error .contentRequired ∧
    addRecord (fun _ => true) (some (toStr "Анна")) (toStr "like")
        (some (toStr "  ")) (toStr "wine-1") =
      .ok { user := normalizeUser (some (toStr "Анна")), record_type := toStr "like",
            content := toStr "1", wine_id := pyStrip (toStr "wine-1") } :=
  C4_note_like_content (fun _ => true) (some (toStr "Анна")) (some (toStr "  "))
    (toStr "wine-1") (by decide) rfl (by decide)

/-- C10: every record successfully stored by `add_record` has a non-empty
user, and when the caller-supplied user is `None`, empty or whitespace-only,
the stored user is the default guest identity `"Гость"`. -/
theorem C10_guest_user (wineExists : Str → Bool) (user : Option Str)
    (recordType : Str) (content : Option Str) (wineId : Str) (rec : PublicRecord)
    (h : addRecord wineExists user recordType content wineId = .ok rec) :
    rec.user ≠ [] ∧ (pyStrip (pyOr1 user) = [] → rec.user = toStr "Гость") := by
  have huser : rec.user = normalizeUser user := by
    unfold addRecord at h
    cases ht : normalizeRecordType recordType with
    | error e => rw [ht] at h; simp [bind, Except.bind] at h
    | ok t =>
      rw [ht] at h
      cases hw : normalizeWineId wineExists wineId with
      | error e => rw [hw] at h; simp [bind, Except.bind] at h
      | ok w =>
        rw [hw] at h
        simp only [bind, Except.bind] at h
        split at h
        · simp [throw, throwThe, MonadExceptOf.throw] at h
        · simp only [pure, Except.pure, Except.ok.injEq] at h
          rw [← h]
  rw [huser]
  simp only [normalizeUser]
  by_cases hu : pyStrip (pyOr1 user) = []
  · rw [if_pos hu]
    exact ⟨by decide, fun _ => rfl⟩
  · rw [if_neg hu]
    exact ⟨hu, fun hc => absurd hc hu⟩

/-- The record stored for a whitespace-only user in the C10 witness. -/
def c10StoredRecord : PublicRecord :=
  { user := toStr "Гость", record_type := toStr "like",
    content := toStr "1", wine_id := toStr "w1" }

/-- Witness for C10 at a whitespace-only user. -/
theorem C10_guest_user_witness :
    c10StoredRecord.user ≠ [] ∧
    (pyStrip (pyOr1 (some (toStr " "))) = [] → c10StoredRecord.user = toStr "Гость") :=
  C10_guest_user (fun _ => true) (some (toStr " ")) (toStr "like") none
    (toStr "w1") c10StoredRecord (by decide)

/-! ## assistant.py — reference resolver helpers -/

/-- Embeds `WineAssistant._normalize_text` (assistant.py:444-447): strip,
lower-case, then replace `ё` by `е`.  `unicodedata.normalize("NFKC", ·)` is
modelled as the identity — it is the identity on NFKC-normal text, which
covers every character class the resolver inspects. -/
def normalizeText (text : Str) : Str :=
  (pyLower (pyStrip text)).map (fun c => if c = 'ё' then 'е' else c)

/-- Python `\d` for the inputs in scope (ASCII digits). -/
def isDigitCh (c : Char) : Bool := '0' ≤ c && c ≤ '9'

/-- The character class `[0-9а-яё-]` used by the resolver regexes. -/
def isRefTokenChar (c : Char) : Bool :=
  isDigitCh c || ('а' ≤ c && c ≤ 'я') || c = 'ё' || c = '-'

/-- The character class `[а-яё-]` (word scan of the resolver). -/
def isCyrDashChar (c : Char) : Bool :=
  ('а' ≤ c && c ≤ 'я') || c = 'ё' || c = '-'

/-- The character class `[а-яё]` (stem cleaning in the word tables). -/
def isCyrLetter (c : Char) : Bool :=
  ('а' ≤ c && c ≤ 'я') || c = 'ё'

/-- The character class `[\d,\s;#№и\-]` (pure position-list inputs). -/
def isDigitsListChar (c : Char) : Bool :=
  isDigitCh c || c = ',' || pyIsSpace c || c = ';' || c = '#' || c = '№' ||
  c = 'и' || c = '-'

/-- The character class `[а-яё,\s\-]` (pure ordinal-word inputs). -/
def isCyrListChar (c : Char) : Bool :=
  ('а' ≤ c && c ≤ 'я') || c = 'ё' || c = ',' || pyIsSpace c || c = '-'

/-- The ordinal word stems of `_ordinal_word_to_int` (assistant.py:449-480),
in source order (first match wins, longer stems listed first). -/
def ordinalStems : List (Str × Int) :=
  [(toStr "одиннадцат", 11), (toStr "двенадцат", 12), (toStr "тринадцат", 13),
   (toStr "четырнадцат", 14), (toStr "пятнадцат", 15), (toStr "шестнадцат", 16),
   (toStr "семнадцат", 17), (toStr "восемнадцат", 18), (toStr "девятнадцат", 19),
   (toStr "двадцат", 20), (toStr "десят", 10), (toStr "девят", 9),
   (toStr "восьм", 8), (toStr "седьм", 7), (toStr "шест", 6), (toStr "пят", 5),
   (toStr "четверт", 4), (toStr "трет", 3), (toStr "втор", 2), (toStr "перв", 1)]

/-- Embeds `WineAssistant._ordinal_word_to_int` (assistant.py:449-480). -/
def ordinalWordToInt (word : Str) : Option Int :=
  let w := pyStrip (pyLower word)
  if w = [] then none
  else
    let w := (w.filter isCyrLetter).map (fun c => if c = 'ё' then 'е' else c)
    (ordinalStems.find? (fun p => p.1.isPrefixOf w)).map (fun p => p.2)

/-- The cardinal word stems of `_count_word_to_int` (assistant.py:482-523),
in source order. -/
def countStems : List (Str × Int) :=
  [(toStr "одиннадцат", 11), (toStr "одиннадц", 11), (toStr "двенадцат", 12),
   (toStr "двенадц", 12), (toStr "тринадцат", 13), (toStr "тринадц", 13),
   (toStr "четырнадцат", 14), (toStr "четырнадц", 14), (toStr "пятнадцат", 15),
   (toStr "пятнадц", 15), (toStr "шестнадцат", 16), (toStr "шестнадц", 16),
   (toStr "семнадцат", 17), (toStr "семнадц", 17), (toStr "восемнадцат", 18),
   (toStr "восемнадц", 18), (toStr "девятнадцат", 19), (toStr "девятнадц", 19),
   (toStr "двадцат", 20), (toStr "десят", 10), (toStr "девят", 9),
   (toStr "восем", 8), (toStr "сем", 7), (toStr "шест", 6), (toStr "пят", 5),
   (toStr "четыр", 4), (toStr "три", 3), (toStr "два", 2), (toStr "один", 1)]

/-- Embeds `WineAssistant._count_word_to_int` (assistant.py:482-523). -/
def countWordToInt (word : Str) : Option Int :=
  let w := pyStrip (pyLower word)
  if w = [] then none
  else
    let w := (w.filter isCyrLetter).map (fun c => if c = 'ё' then 'е' else c)
    (countStems.find? (fun p => p.1.isPrefixOf w)).map (fun p => p.2)

/-- Embeds Python `int(s)` for decimal strings: optional surrounding
whitespace, optional sign, then at least one digit — anything else raises
`ValueError`, modelled as the `Except` error. -/
def digitsVal (s : Str) : Int :=
  s.foldl (fun acc c => acc * 10 + ((c.toNat : Int) - ('0'.toNat : Int))) 0

/-- Python `int()` as a fallible conversion. -/
def pyInt (s : Str) : Except String Int :=
  match pyStrip s with
  | '+' :: rest =>
    if rest ≠ [] ∧ rest.all isDigitCh then .ok (digitsVal rest)
    else .error "invalid literal for int"
  | '-' :: rest =>
    if rest ≠ [] ∧ rest.all isDigitCh then .ok (-(digitsVal rest))
    else .error "invalid literal for int"
  | t =>
    if t ≠ [] ∧ t.all isDigitCh then .ok (digitsVal t)
    else .error "invalid literal for int"

/-- Embeds `re.match(r"^(\d+)", t)` returning the first group. -/
def matchLeadingDigits (s : Str) : Option Str :=
  if s.takeWhile isDigitCh = [] then none else some (s.takeWhile isDigitCh)

/-- Embeds `WineAssistant._position_token_to_int` (assistant.py:525-536). -/
def positionTokenToInt (token : Str) : Except String (Option Int) := do
  let t := normalizeText token
  if t = [] then return none
  let t := pyStripChars (toStr ".,;:()[]\x7b\x7d") (pyStrip t)
  if t = [] then return none
  match matchLeadingDigits t with
  | some d => do
    let n ← pyInt d
    return some n
  | none => return ordinalWordToInt t

/-- Embeds `WineAssistant._count_token_to_int` (assistant.py:538-545). -/
def countTokenToInt (token : Str) : Except String (Option Int) := do
  let t := normalizeText token
  if t = [] then return none
  match matchLeadingDigits t with
  | some d => do
    let n ← pyInt d
    return some n
  | none => return countWordToInt t

/-- Python `needle in hay` on strings: contiguous substring containment. -/
def isSubstrOf (needle : Str) : Str → Bool
  | [] => needle.isPrefixOf []
  | c :: rest => needle.isPrefixOf (c :: rest) || isSubstrOf needle rest

/-- The fixed "all of them" phrasings of `_is_all_positions_phrase`
(assistant.py:547-578), in source order. -/
def allPositionsMarkers : List Str :=
  [toStr "все позиции", toStr "всех позиций", toStr "все из списка",
   toStr "всех из списка", toStr "все позиции из списка",
   toStr "всех позиций из списка", toStr "все из результатов",
   toStr "все строки", toStr "всех строк", toStr "все пункты",
   toStr "всех пунктов", toStr "все варианты", toStr "всех вариантов",
   toStr "все вина из списка", toStr "все найденные",
   toStr "все найденные вина", toStr "все из них", toStr "все они",
   toStr "всем из списка", toStr "для всех позиций", toStr "для всех пунктов",
   toStr "по всем позициям"]

/-- Embeds `WineAssistant._is_all_positions_phrase` (assistant.py:547-578). -/
def isAllPositionsPhrase (q : Str) : Bool :=
  allPositionsMarkers.any (fun m => isSubstrOf m q) ||
  ([toStr "все", toStr "все их", toStr "все они", toStr "всем",
    toStr "всех"].contains (pyStrip q)) ||
  (wholeWordContains q (toStr "все") &&
   [toStr "спис", toStr "результат", toStr "позиц", toStr "пункт",
    toStr "строк", toStr "вариант"].any (fun m => isSubstrOf m q))

/-- Embeds `WineAssistant._has_list_reference_phrase` (assistant.py:583-596). -/
def hasListReferencePhrase (q : Str) : Bool :=
  [toStr "позици", toStr "номер", toStr "из списка", toStr "из результатов",
   toStr "вариант", toStr "пункт", toStr "строк", toStr "вино 1",
   toStr "вина 1"].any (fun m => isSubstrOf m q)

/-- Python `list(range(a, b))` on integers. -/
def rangeFromTo (a b : Int) : List Int :=
  (List.range (b - a).toNat).map (fun i => a + (i : Int))

/-- Embeds `WineAssistant._expand_range` (assistant.py:598-604): empty on a
non-positive endpoint, ascending `start..end`, or descending
`start..end` stepping backward. -/
def expandRange (start stop : Int) : List Int :=
  if start ≤ 0 ∨ stop ≤ 0 then []
  else if start ≤ stop then rangeFromTo start (stop + 1)
  else (List.range (start - stop + 1).toNat).map (fun i => start - (i : Int))

/-- Embeds `WineAssistant._dedupe_ints` (assistant.py:722-730): keep the
first occurrence of each value, preserving order. -/
def dedupeIntsGo : List Int → List Int → List Int
  | [], _ => []
  | v :: rest, seen =>
    if seen.contains v then dedupeIntsGo rest seen
    else v :: dedupeIntsGo rest (v :: seen)

/-- `_dedupe_ints` entry point. -/
def dedupeInts (values : List Int) : List Int := dedupeIntsGo values []

/-! ### Regex matchers of `_extract_position_refs`

Each matcher embeds exactly one pattern of assistant.py:606-720, realising
leftmost search / non-overlapping `findall` semantics with the backtracking
the pattern needs.  Scanners take a fuel argument set to the input length
plus one; every step consumes at least one input character, so the fuel
never runs out. -/

/-- Greedy `cls+` at the head followed by `\b`, backtracking the run until
the boundary holds; returns the matched group. -/
def greedyClassBoundaryK (run rest : Str) : Nat → Option Str
  | 0 => none
  | k + 1 =>
    match run.get? k with
    | none => greedyClassBoundaryK run rest k
    | some lastC =>
      let next := if k + 1 < run.length then run.get? (k + 1) else rest.head?
      if wordBoundaryB lastC next then some (run.take (k + 1))
      else greedyClassBoundaryK run rest k

/-- `([cls]+)\b` at the head of `s`. -/
def greedyClassBoundary (cls : Char → Bool) (s : Str) : Option Str :=
  let run := s.takeWhile cls
  let rest := s.dropWhile cls
  if run = [] then none else greedyClassBoundaryK run rest run.length

/-- `\s+([0-9а-яё-]+)\b` at the head of `s`. -/
def matchCountTail (s : Str) : Option Str :=
  if s.takeWhile pyIsSpace = [] then none
  else greedyClassBoundary isRefTokenChar (s.dropWhile pyIsSpace)

/-- Try each optional stem suffix in alternation order (the empty suffix is
passed as the list's last element), then the count tail. -/
def matchStemSuffixTail : List Str → Str → Option Str
  | [], _ => none
  | suf :: more, s =>
    match (if suf.isPrefixOf s then matchCountTail (s.drop suf.length) else none) with
    | some g => some g
    | none => matchStemSuffixTail more s

/-- `re.search(rf"\b{stem}(?:{sufs})?\s+([0-9а-яё-]+)\b", q)` returning the
group of the first match (used for the `перв...`/`последн...` rules,
assistant.py:619 and 625). -/
def searchStemCountGo (stem : Str) (sufs : List Str) :
    Nat → Option Char → Str → Option Str
  | 0, _, _ => none
  | fuel + 1, prev, s =>
    match (if boundaryOk prev && stem.isPrefixOf s then
             matchStemSuffixTail (sufs ++ [[]]) (s.drop stem.length)
           else none), s with
    | some g, _ => some g
    | none, [] => none
    | none, c :: rest => searchStemCountGo stem sufs fuel (some c) rest

/-- Entry point of the stem search. -/
def searchStemCount (stem : Str) (sufs : List Str) (q : Str) : Option Str :=
  searchStemCountGo stem sufs (q.length + 1) none q

/-- The separator alternation `(?:по|до|-|–|—|\.\.)` of the compact-range
pattern, in source order; returns the separator length. -/
def compactRangeSepAt (s : Str) : Option Nat :=
  if (toStr "по").isPrefixOf s then some 2
  else if (toStr "до").isPrefixOf s then some 2
  else if (toStr "-").isPrefixOf s then some 1
  else if (toStr "–").isPrefixOf s then some 1
  else if (toStr "—").isPrefixOf s then some 1
  else if (toStr "..").isPrefixOf s then some 2
  else none

/-- `\s*[0-9а-яё-]+\s*` at the head of `s` reaching the end of input. -/
def compactRangeTail (s : Str) : Bool :=
  let s1 := s.dropWhile pyIsSpace
  let run := s1.takeWhile isRefTokenChar
  run ≠ [] && (s1.dropWhile isRefTokenChar).all pyIsSpace

/-- Backtrack the greedy first token of the compact-range pattern from the
longest prefix of its maximal run down to one character. -/
def compactRangeFromTok1 (run rest : Str) : Nat → Bool
  | 0 => false
  | k + 1 =>
    (let after := (run.drop (k + 1) ++ rest).dropWhile pyIsSpace
     match compactRangeSepAt after with
     | some n => compactRangeTail (after.drop n)
     | none => false) ||
    compactRangeFromTok1 run rest k

/-- `(?:с|от)?` consumed; match `\s*[0-9а-яё-]+\s*sep\s*[0-9а-яё-]+\s*` to
the end of input. -/
def compactRangeAfterPref (s : Str) : Bool :=
  let s1 := s.dropWhile pyIsSpace
  let run := s1.takeWhile isRefTokenChar
  let rest := s1.dropWhile isRefTokenChar
  run ≠ [] && compactRangeFromTok1 run rest run.length

/-- Embeds `re.fullmatch(r"\s*(?:с|от)?\s*[0-9а-яё-]+\s*(?:по|до|-|–|—|\.\.)\s*[0-9а-яё-]+\s*", q)`
(assistant.py:633-635). -/
def isCompactRange (q : Str) : Bool :=
  let s0 := q.dropWhile pyIsSpace
  (if (toStr "с").isPrefixOf s0 then compactRangeAfterPref (s0.drop 1) else false) ||
  (if (toStr "от").isPrefixOf s0 then compactRangeAfterPref (s0.drop 2) else false) ||
  compactRangeAfterPref s0

/-- The body `(?:с|от)?\s*(\d+)\s*(?:по|до)\s*(\d+)` after the lead of the
worded numeric-range pattern; returns both digit groups and the rest of the
input after the match. -/
def matchRangeCore (s : Str) : Option (Str × Str × Str) :=
  let s1 := s.dropWhile pyIsSpace
  let d1 := s1.takeWhile isDigitCh
  if d1 = [] then none
  else
    let s2 := (s1.dropWhile isDigitCh).dropWhile pyIsSpace
    let sepLen :=
      if (toStr "по").isPrefixOf s2 then some 2
      else if (toStr "до").isPrefixOf s2 then some 2
      else none
    match sepLen with
    | none => none
    | some k =>
      let s3 := (s2.drop k).dropWhile pyIsSpace
      let d2 := s3.takeWhile isDigitCh
      if d2 = [] then none else some (d1, d2, s3.dropWhile isDigitCh)

/-- The `(?:с|от)?` alternation before the range body, in order. -/
def matchRangeAfterLead (s : Str) : Option (Str × Str × Str) :=
  match (if (toStr "с").isPrefixOf s then matchRangeCore (s.drop 1) else none) with
  | some r => some r
  | none =>
    match (if (toStr "от").isPrefixOf s then matchRangeCore (s.drop 2) else none) with
    | some r => some r
    | none => matchRangeCore s

/-- The lead class `[\s,;]` of the worded numeric-range pattern. -/
def isRangeLeadChar (c : Char) : Bool := pyIsSpace c || c = ',' || c = ';'

/-- One match attempt at the current position: the `^` alternative of the
lead when at the string start, then the one-character lead class. -/
def findallNumRangesStep (atStart : Bool) (s : Str) : Option (Str × Str × Str) :=
  match (if atStart then matchRangeAfterLead s else none) with
  | some r => some r
  | none =>
    match s with
    | [] => none
    | c :: rest => if isRangeLeadChar c then matchRangeAfterLead rest else none

/-- Embeds `re.findall(r"(?:^|[\s,;])(?:с|от)?\s*(\d+)\s*(?:по|до)\s*(\d+)", q)`
(assistant.py:642): non-overlapping leftmost matches, `^` tried before the
one-character lead class. -/
def findallNumRangesGo : Nat → Bool → Str → List (Str × Str)
  | 0, _, _ => []
  | fuel + 1, atStart, s =>
    match findallNumRangesStep atStart s, s with
    | some (d1, d2, rest), _ => (d1, d2) :: findallNumRangesGo fuel false rest
    | none, [] => []
    | none, _ :: rest => findallNumRangesGo fuel false rest

/-- Entry point of the worded numeric-range findall. -/
def findallNumRanges (q : Str) : List (Str × Str) :=
  findallNumRangesGo (q.length + 1) true q

/-- The separator alternation `(?:-|–|—|\.\.)`, in source order. -/
def dashRangeSepAt (s : Str) : Option Nat :=
  if (toStr "-").isPrefixOf s then some 1
  else if (toStr "–").isPrefixOf s then some 1
  else if (toStr "—").isPrefixOf s then some 1
  else if (toStr "..").isPrefixOf s then some 2
  else none

/-- One match of `\b(\d+)\s*(?:-|–|—|\.\.)\s*(\d+)\b` at the head given the
previous character; returns the groups and the rest after the match. -/
def matchDashRangeAt (prev : Option Char) (s : Str) : Option (Str × Str × Str) :=
  if !boundaryOk prev then none
  else
    let d1 := s.takeWhile isDigitCh
    if d1 = [] then none
    else
      let s1 := (s.dropWhile isDigitCh).dropWhile pyIsSpace
      match dashRangeSepAt s1 with
      | none => none
      | some k =>
        let s2 := (s1.drop k).dropWhile pyIsSpace
        let d2 := s2.takeWhile isDigitCh
        if d2 = [] then none
        else
          let rest := s2.dropWhile isDigitCh
          match rest.head? with
          | none => some (d1, d2, rest)
          | some c => if isWordChar c then none else some (d1, d2, rest)

/-- Embeds `re.findall(r"\b(\d+)\s*(?:-|–|—|\.\.)\s*(\d+)\b", q)`
(assistant.py:644). -/
def findallDashRangesGo : Nat → Option Char → Str → List (Str × Str)
  | 0, _, _ => []
  | fuel + 1, prev, s =>
    match matchDashRangeAt prev s, s with
    | some (d1, d2, rest), _ =>
      (d1, d2) :: findallDashRangesGo fuel (d2.getLast?) rest
    | none, [] => []
    | none, c :: rest => findallDashRangesGo fuel (some c) rest

/-- Entry point of the dashed numeric-range findall. -/
def findallDashRanges (q : Str) : List (Str × Str) :=
  findallDashRangesGo (q.length + 1) none q

/-- The body `\s+([0-9а-яё-]+)\s+(?:по|до)\s+([0-9а-яё-]+)` after the
mandatory `с`/`от` of the word-range pattern. -/
def matchWordRangeCore (s : Str) : Option (Str × Str × Str) :=
  if s.takeWhile pyIsSpace = [] then none
  else
    let s1 := s.dropWhile pyIsSpace
    let g1 := s1.takeWhile isRefTokenChar
    if g1 = [] then none
    else
      let s2 := s1.dropWhile isRefTokenChar
      if s2.takeWhile pyIsSpace = [] then none
      else
        let s3 := s2.dropWhile pyIsSpace
        let sepLen :=
          if (toStr "по").isPrefixOf s3 then some 2
          else if (toStr "до").isPrefixOf s3 then some 2
          else none
        match sepLen with
        | none => none
        | some k =>
          let s4 := s3.drop k
          if s4.takeWhile pyIsSpace = [] then none
          else
            let s5 := s4.dropWhile pyIsSpace
            let g2 := s5.takeWhile isRefTokenChar
            if g2 = [] then none
            else some (g1, g2, s5.dropWhile isRefTokenChar)

/-- The mandatory `(?:с|от)` alternation of the word-range pattern. -/
def matchWordRangeAt (s : Str) : Option (Str × Str × Str) :=
  match (if (toStr "с").isPrefixOf s then matchWordRangeCore (s.drop 1) else none) with
  | some r => some r
  | none =>
    if (toStr "от").isPrefixOf s then matchWordRangeCore (s.drop 2) else none

/-- Embeds `re.findall(r"(?:с|от)\s+([0-9а-яё-]+)\s+(?:по|до)\s+([0-9а-яё-]+)", q)`
(assistant.py:653). -/
def findallWordRangesGo : Nat → Str → List (Str × Str)
  | 0, _ => []
  | fuel + 1, s =>
    match matchWordRangeAt s, s with
    | some (g1, g2, rest), _ => (g1, g2) :: findallWordRangesGo fuel rest
    | none, [] => []
    | none, _ :: rest => findallWordRangesGo fuel rest

/-- Entry point of the word-range findall. -/
def findallWordRanges (q : Str) : List (Str × Str) :=
  findallWordRangesGo (q.length + 1) q

/-- Embeds `re.findall(r"cls+", q)` for a character class `cls`: the maximal
runs of class characters, left to right (used with `\d+` and `[а-яё-]+`,
assistant.py:668,693 and others). -/
def findallClassRunsGo (cls : Char → Bool) : Nat → Str → List Str
  | 0, _ => []
  | fuel + 1, s =>
    match s with
    | [] => []
    | c :: rest =>
      if cls c then
        (c :: rest.takeWhile cls) :: findallClassRunsGo cls fuel (rest.dropWhile cls)
      else findallClassRunsGo cls fuel rest

/-- Entry point of the class-run findall. -/
def findallClassRuns (cls : Char → Bool) (q : Str) : List Str :=
  findallClassRunsGo cls (q.length + 1) q

/-- One attempt of `\s*(?:я|й)?\b` after the digit group of the
single-position pattern, having consumed `j` of the maximal space run:
try the suffixes in alternation order, then the empty alternative. -/
def numSufCheckAt (d spRun afterSp : Str) (j : Nat) : Bool :=
  let rem := (spRun.drop j) ++ afterSp
  let prev : Option Char := if j = 0 then d.getLast? else spRun.get? (j - 1)
  (match rem with
   | c :: rest2 => (c = 'я' || c = 'й') && wordBoundaryB c rest2.head?
   | [] => false) ||
  (match prev with
   | some pc => wordBoundaryB pc rem.head?
   | none => false)

/-- Backtrack the greedy `\s*` from the maximal run down to zero. -/
def numSufSpaces (d spRun afterSp : Str) : Nat → Bool
  | 0 => numSufCheckAt d spRun afterSp 0
  | j + 1 => numSufCheckAt d spRun afterSp (j + 1) || numSufSpaces d spRun afterSp j

/-- Backtrack the greedy digit group from the maximal run down to one
character; returns the group of the first success. -/
def numSufDigitsK (run rest : Str) : Nat → Option Str
  | 0 => none
  | k + 1 =>
    let d := run.take (k + 1)
    let rem := run.drop (k + 1) ++ rest
    let spRun := rem.takeWhile pyIsSpace
    let afterSp := rem.dropWhile pyIsSpace
    if numSufSpaces d spRun afterSp spRun.length then some d
    else numSufDigitsK run rest k

/-- One match attempt of `\b(\d+)\s*(?:я|й)?\b` at the head of `s`. -/
def matchNumSufAt (prev : Option Char) (s : Str) : Option Str :=
  if !boundaryOk prev then none
  else
    let run := s.takeWhile isDigitCh
    if run = [] then none
    else numSufDigitsK run (s.dropWhile isDigitCh) run.length

/-- Embeds `re.search(r"\b(\d+)\s*(?:я|й)?\b", q)` returning the digit group
of the first match (assistant.py:695 and 713). -/
def searchNumSufGo : Nat → Option Char → Str → Option Str
  | 0, _, _ => none
  | fuel + 1, prev, s =>
    match matchNumSufAt prev s, s with
    | some d, _ => some d
    | none, [] => none
    | none, c :: rest => searchNumSufGo fuel (some c) rest

/-- Entry point of the single-position search. -/
def searchNumSuf (q : Str) : Option Str :=
  searchNumSufGo (q.length + 1) none q

/-! ### `_extract_position_refs` (assistant.py:606-720)

The source function is a single cascade of early-returning blocks; it is
embedded as a chain of stage functions, one per source block, each stage
falling through to the next exactly where the source falls through. -/

/-- `if max_n: nums = [n for n in nums if 1 <= n <= max_n]`. -/
def filterInRange (maxN : Option Int) (nums : List Int) : List Int :=
  match maxN with
  | some mx => nums.filter (fun n => decide (1 ≤ n) && decide (n ≤ mx))
  | none => nums

/-- The `"первые N"` block (assistant.py:619-624): on a match of the stem
pattern, parse the count token; a positive count returns the leading
positions clamped to the bound, otherwise fall through (`none`). -/
def extractStageAFirst (q : Str) (mx : Int) : Except String (Option (List Int)) := do
  match searchStemCount (toStr "перв")
      [toStr "ые", toStr "ых", toStr "ую", toStr "ой"] q with
  | some g =>
    let n? ← countTokenToInt g
    match n? with
    | some n =>
      if 0 < n then return some (rangeFromTo 1 (min n mx + 1))
      else return none
    | none => return none
  | none => return none

/-- The `"последние N"` block (assistant.py:625-630): the trailing positions
clamped to the bound. -/
def extractStageALast (q : Str) (mx : Int) : Except String (Option (List Int)) := do
  match searchStemCount (toStr "последн")
      [toStr "ие", toStr "их", toStr "юю", toStr "ей"] q with
  | some g =>
    let n? ← countTokenToInt g
    match n? with
    | some n =>
      if 0 < n then return some (rangeFromTo (mx - min n mx + 1) (mx + 1))
      else return none
    | none => return none
  | none => return none

/-- The final block (assistant.py:712-718): a lone `\b(\d+)\s*(?:я|й)?\b`
match combined with a pick verb returns that single position, rejected when a
bound is known and the position is out of range. -/
def extractStageI (q : Str) (maxN : Option Int) : Except String (List Int) := do
  match searchNumSuf q with
  | some d =>
    if isSubstrOf (toStr "выбираю") q || isSubstrOf (toStr "беру") q then
      let n ← pyInt d
      match maxN with
      | some mx =>
        if 1 ≤ n ∧ n ≤ mx then return [n] else return []
      | none => return [n]
    else return []
  | none => return []

/-- The list-reference fallback block (assistant.py:706-711): with a list
reference phrase present, return the deduplicated in-range digit groups
unconditionally. -/
def extractStageH (q : Str) (maxN : Option Int) : Except String (List Int) := do
  if hasListReferencePhrase q then
    let nums ← (findallClassRuns isDigitCh q).mapM pyInt
    return filterInRange maxN (dedupeInts nums)
  else extractStageI q maxN

/-- The ordinal-word scan of the pick-verb block (assistant.py:700-704):
first word whose ordinal value is truthy and in range. -/
def stageGWords (q : Str) (mx : Int) : List Int :=
  match (findallClassRuns isCyrDashChar q).findSome? (fun w =>
    match ordinalWordToInt w with
    | some n => if n ≠ 0 ∧ 1 ≤ n ∧ n ≤ mx then some n else none
    | none => none) with
  | some n => [n]
  | none => []

/-- The pick-verb block (assistant.py:693-705): with a bound known and a pick
verb present, a digit match in range wins, then the first in-range ordinal
word, otherwise the empty list — unconditionally ending resolution. -/
def extractStageG (q : Str) (maxN : Option Int) : Except String (List Int) := do
  match maxN with
  | some mx =>
    if [toStr "выбираю", toStr "беру", toStr "выбери",
        toStr "выберу"].any (fun m => isSubstrOf m q) then
      match searchNumSuf q with
      | some d =>
        let n ← pyInt d
        if 1 ≤ n ∧ n ≤ mx then return [n]
        else return stageGWords q mx
      | none => return stageGWords q mx
    else extractStageH q maxN
  | none => extractStageH q maxN

/-- The pure-ordinal-words block (assistant.py:685-691): with a bound known
and the input made of Cyrillic letters, commas, whitespace and dashes only,
resolve the ordinal words, keep the in-range ones, and return them when
non-empty. -/
def extractStageF (q : Str) (maxN : Option Int) : Except String (List Int) := do
  match maxN with
  | some mx =>
    if decide (q ≠ []) && q.all isCyrListChar then
      let words := findallClassRuns isCyrDashChar q
      let nums := (words.filterMap ordinalWordToInt).filter (fun n => decide (n ≠ 0))
      let nums := (dedupeInts nums).filter (fun n => decide (1 ≤ n) && decide (n ≤ mx))
      if nums ≠ [] then return nums else extractStageG q maxN
    else extractStageG q maxN
  | none => extractStageG q maxN

/-- The digits-plus-ordinals block (assistant.py:674-683): under list parsing
with a list phrase or a bound, combine all digit groups with all truthy
ordinal words, dedupe, bound-filter, and return when non-empty. -/
def extractStageE (q : Str) (maxN : Option Int) (allow listRef : Bool) :
    Except String (List Int) := do
  if allow && (listRef || maxN.isSome) then
    let digits ← (findallClassRuns isDigitCh q).mapM pyInt
    let words := findallClassRuns isCyrDashChar q
    let nums := digits ++ (words.filterMap ordinalWordToInt).filter (fun n => decide (n ≠ 0))
    let nums := filterInRange maxN (dedupeInts nums)
    if nums ≠ [] then return nums else extractStageF q maxN
  else extractStageF q maxN

/-- The pure position-list block (assistant.py:667-672): an input made only
of digits, separators and connectives returns each digit group, deduplicated
and bound-filtered, unconditionally. -/
def extractStageD (q : Str) (maxN : Option Int) (allow listRef : Bool) :
    Except String (List Int) := do
  if decide (q ≠ []) && q.all isDigitsListChar then
    let nums ← (findallClassRuns isDigitCh q).mapM pyInt
    return filterInRange maxN (dedupeInts nums)
  else extractStageE q maxN allow listRef

/-- The worded-range block (assistant.py:653-665): ranges written with number
words on either side, expanded when both endpoints parse to truthy values. -/
def extractStageC (q : Str) (maxN : Option Int) (allow listRef : Bool) :
    Except String (List Int) := do
  let rangeWords := findallWordRanges q
  if allow && decide (rangeWords ≠ []) then
    let pairs ← rangeWords.mapM (fun p => do
      let a ← positionTokenToInt p.1
      let b ← positionTokenToInt p.2
      pure (a, b))
    let nums := pairs.foldl (fun acc p =>
      match p with
      | (some a, some b) => if a ≠ 0 ∧ b ≠ 0 then acc ++ expandRange a b else acc
      | _ => acc) []
    let nums := filterInRange maxN (dedupeInts nums)
    if nums ≠ [] then return nums else extractStageD q maxN allow listRef
  else extractStageD q maxN allow listRef

/-- The numeric-range block (assistant.py:631-651): `list_ref`, the compact
range form and `allow_list_parsing` are computed here as in the source; under
list parsing the two numeric-range findalls are expanded and returned when
the deduplicated bound-filtered result is non-empty. -/
def extractStageB (q : Str) (maxN : Option Int) : Except String (List Int) := do
  let listRef := hasListReferencePhrase q
  let compactRange := isCompactRange q
  let allow := maxN.isSome || listRef || compactRange
  if allow then
    let expanded ← (findallNumRanges q ++ findallDashRanges q).mapM (fun p => do
      let a ← pyInt p.1
      let b ← pyInt p.2
      pure (expandRange a b))
    let nums := expanded.flatten
    if nums ≠ [] then
      let nums := filterInRange maxN (dedupeInts nums)
      if nums ≠ [] then return nums else extractStageC q maxN allow listRef
    else extractStageC q maxN allow listRef
  else extractStageC q maxN allow listRef

/-- Embeds `WineAssistant._extract_position_refs` (assistant.py:606-720):
normalize the utterance, derive the positive bound, resolve the "all
positions" phrase, then run the block cascade. -/
def extractPositionRefs (text : Str) (maxCount : Option Int) :
    Except String (List Int) := do
  let q := normalizeText text
  if q = [] then return []
  let maxN : Option Int :=
    match maxCount with
    | some k => if 0 < k then some k else none
    | none => none
  if isAllPositionsPhrase q then
    match maxN with
    | some mx => return rangeFromTo 1 (mx + 1)
    | none => return []
  match maxN with
  | some mx =>
    match ← extractStageAFirst q mx with
    | some r => return r
    | none =>
      match ← extractStageALast q mx with
      | some r => return r
      | none => extractStageB q maxN
  | none => extractStageB q maxN

/-! ### Claim C5 -/

/-- C5: the reference resolver satisfies the five sample equations of the
spec: "все позиции" with bound 5 resolves to `[1,2,3,4,5]`, "первые 3" with
bound 5 to `[1,2,3]`, "с 3 по 5" with bound 10 to `[3,4,5]`, "2-й" with
bound 5 to `[2]`, and the unmatched "гиббериш" with bound 5 to `[]`. -/
theorem C5_sample_equations :
    extractPositionRefs (toStr "все позиции") (some 5) = .ok [1, 2, 3, 4, 5] ∧
    extractPositionRefs (toStr "первые 3") (some 5) = .ok [1, 2, 3] ∧
    extractPositionRefs (toStr "с 3 по 5") (some 10) = .ok [3, 4, 5] ∧
    extractPositionRefs (toStr "2-й") (some 5) = .ok [2] ∧
    extractPositionRefs (toStr "гиббериш") (some 5) = .ok [] := by
  refine ⟨by decide, by decide, by decide, by decide, by decide⟩

/-! ### Totality of the resolver (claim C6)

The only fallible operation in the embedding is `pyInt`; the lemmas below
show every call site hands it a non-empty all-digit group, so the resolver
never raises. -/

theorem digit_not_space (c : Char) (h : isDigitCh c = true) : pyIsSpace c = false := by
  by_contra hcon
  have hsp : pyIsSpace c = true := by
    cases hx : pyIsSpace c
    · exact absurd hx hcon
    · rfl
  simp only [pyIsSpace, Bool.or_eq_true, decide_eq_true_eq] at hsp
  rcases hsp with ((((rfl | rfl) | rfl) | rfl) | rfl) | rfl <;> exact absurd h (by decide)

theorem dropWhile_eq_self_of (p : Char → Bool) :
    ∀ s : Str, (∀ c ∈ s, p c = false) → s.dropWhile p = s
  | [], _ => rfl
  | c :: rest, h => by
    rw [List.dropWhile_cons, h c (List.mem_cons_self c rest)]
    simp

theorem pyStrip_all_digits (s : Str) (h : s.all isDigitCh = true) : pyStrip s = s := by
  have hns : ∀ c ∈ s, pyIsSpace c = false := fun c hc =>
    digit_not_space c (List.all_eq_true.mp h c hc)
  have h1 : s.dropWhile pyIsSpace = s := dropWhile_eq_self_of pyIsSpace s hns
  have h2 : s.reverse.dropWhile pyIsSpace = s.reverse :=
    dropWhile_eq_self_of pyIsSpace s.reverse (fun c hc => hns c (List.mem_reverse.mp hc))
  unfold pyStrip pyLStrip pyRStrip
  rw [h1, h2, List.reverse_reverse]

theorem pyInt_ok_of_digits (s : Str) (hne : s ≠ []) (hall : s.all isDigitCh = true) :
    ∃ n, pyInt s = .ok n := by
  unfold pyInt
  rw [pyStrip_all_digits s hall]
  split
  · rw [List.all_cons, show isDigitCh '+' = false from rfl] at hall
    simp at hall
  · rw [List.all_cons, show isDigitCh '-' = false from rfl] at hall
    simp at hall
  · exact ⟨digitsVal s, by rw [if_pos ⟨hne, hall⟩]⟩

theorem takeWhile_all (p : Char → Bool) (s : Str) : (s.takeWhile p).all p = true :=
  List.all_eq_true.mpr fun _ hx => List.mem_takeWhile_imp hx

theorem matchLeadingDigits_spec (s d : Str) (h : matchLeadingDigits s = some d) :
    d ≠ [] ∧ d.all isDigitCh = true := by
  unfold matchLeadingDigits at h
  split at h
  · exact absurd h (by simp)
  · rename_i hne
    cases h
    exact ⟨hne, takeWhile_all isDigitCh s⟩

theorem countTokenToInt_total (t : Str) : ∃ v, countTokenToInt t = .ok v := by
  unfold countTokenToInt
  by_cases hq : normalizeText t = []
  · exact ⟨none, by simp [hq, bind, Except.bind, pure, Except.pure]⟩
  · simp only [hq, if_neg, ite_false]
    split
    · rename_i d hd
      obtain ⟨hne, hall⟩ := matchLeadingDigits_spec _ _ hd
      obtain ⟨n, hn⟩ := pyInt_ok_of_digits d hne hall
      exact ⟨some n, by simp [hn, bind, Except.bind, pure, Except.pure]⟩
    · exact ⟨_, rfl⟩

theorem positionTokenToInt_total (t : Str) : ∃ v, positionTokenToInt t = .ok v := by
  unfold positionTokenToInt
  by_cases hq : normalizeText t = []
  · exact ⟨none, by simp [hq, bind, Except.bind, pure, Except.pure]⟩
  · simp only [hq, if_neg, ite_false]
    by_cases ht2 : pyStripChars (toStr ".,;:()[]\x7b\x7d") (pyStrip (normalizeText t)) = []
    · exact ⟨none, by simp [ht2, bind, Except.bind, pure, Except.pure]⟩
    · simp only [ht2, if_neg, ite_false]
      split
      · rename_i d hd
        obtain ⟨hne, hall⟩ := matchLeadingDigits_spec _ _ hd
        obtain ⟨n, hn⟩ := pyInt_ok_of_digits d hne hall
        exact ⟨some n, by simp [hn, bind, Except.bind, pure, Except.pure]⟩
      · exact ⟨_, rfl⟩

theorem mapM_loop_ok {α β : Type} (f : α → Except String β) :
    ∀ (l : List α) (acc : List β), (∀ x ∈ l, ∃ y, f x = .ok y) →
      ∃ v, List.mapM.loop f l acc = .ok v := by
  intro l
  induction l with
  | nil => intro acc _; exact ⟨acc.reverse, rfl⟩
  | cons d rest ih =>
    intro acc h
    obtain ⟨y, hy⟩ := h d (List.mem_cons_self d rest)
    obtain ⟨v, hv⟩ := ih (y :: acc) (fun x hx => h x (List.mem_cons_of_mem d hx))
    exact ⟨v, by simp [List.mapM.loop, hy, hv, bind, Except.bind]⟩

theorem mapM_ok_of_forall {α β : Type} (f : α → Except String β)
    (l : List α) (h : ∀ x ∈ l, ∃ y, f x = .ok y) :
    ∃ v, l.mapM f = .ok v := by
  obtain ⟨v, hv⟩ := mapM_loop_ok f l [] h
  exact ⟨v, by simpa [List.mapM] using hv⟩

theorem findallNumRangesGo_succ (fuel : Nat) (atStart : Bool) (s : Str) :
    findallNumRangesGo (fuel + 1) atStart s =
      (match findallNumRangesStep atStart s, s with
       | some (d1, d2, rest), _ => (d1, d2) :: findallNumRangesGo fuel false rest
       | none, [] => []
       | none, _ :: rest => findallNumRangesGo fuel false rest) := rfl

theorem findallDashRangesGo_succ (fuel : Nat) (prev : Option Char) (s : Str) :
    findallDashRangesGo (fuel + 1) prev s =
      (match matchDashRangeAt prev s, s with
       | some (d1, d2, rest), _ =>
         (d1, d2) :: findallDashRangesGo fuel (d2.getLast?) rest
       | none, [] => []
       | none, c :: rest => findallDashRangesGo fuel (some c) rest) := rfl

theorem searchNumSufGo_succ (fuel : Nat) (prev : Option Char) (s : Str) :
    searchNumSufGo (fuel + 1) prev s =
      (match matchNumSufAt prev s, s with
       | some d, _ => some d
       | none, [] => none
       | none, c :: rest => searchNumSufGo fuel (some c) rest) := rfl

/-- Non-emptiness and digit-only content of each digit group a findall run
produces. -/
def IsDigitGroup (d : Str) : Prop := d ≠ [] ∧ d.all isDigitCh = true

theorem findallClassRuns_digit_spec :
    ∀ fuel s, ∀ r ∈ findallClassRunsGo isDigitCh fuel s, IsDigitGroup r := by
  intro fuel
  induction fuel with
  | zero => intro s r h; simp [findallClassRunsGo] at h
  | succ n ih =>
    intro s r h
    match s with
    | [] => simp [findallClassRunsGo] at h
    | c :: rest =>
      rw [findallClassRunsGo] at h
      by_cases hc : isDigitCh c = true
      · rw [if_pos hc] at h
        rcases List.mem_cons.mp h with rfl | hmem
        · exact ⟨by simp, by simp [List.all_cons, hc, takeWhile_all]⟩
        · exact ih _ _ hmem
      · rw [if_neg hc] at h
        exact ih _ _ h

theorem matchRangeCore_spec (s : Str) (a b rest : Str)
    (h : matchRangeCore s = some (a, b, rest)) : IsDigitGroup a ∧ IsDigitGroup b := by
  unfold matchRangeCore at h
  dsimp only at h
  split at h
  · exact absurd h (by simp)
  · rename_i hne1
    split at h
    · exact absurd h (by simp)
    · split at h
      · exact absurd h (by simp)
      · rename_i hne2
        simp only [Option.some.injEq, Prod.mk.injEq] at h
        obtain ⟨ha, hb, _⟩ := h
        exact ⟨ha ▸ ⟨hne1, takeWhile_all isDigitCh _⟩,
               hb ▸ ⟨hne2, takeWhile_all isDigitCh _⟩⟩

theorem matchRangeAfterLead_spec (s : Str) (a b rest : Str)
    (h : matchRangeAfterLead s = some (a, b, rest)) : IsDigitGroup a ∧ IsDigitGroup b := by
  unfold matchRangeAfterLead at h
  split at h
  · rename_i r heq
    injection h with h2
    subst h2
    split at heq
    · exact matchRangeCore_spec _ _ _ _ heq
    · exact absurd heq (by simp)
  · split at h
    · rename_i r heq
      injection h with h2
      subst h2
      split at heq
      · exact matchRangeCore_spec _ _ _ _ heq
      · exact absurd heq (by simp)
    · exact matchRangeCore_spec _ _ _ _ h

theorem findallNumRangesStep_spec (atStart : Bool) (s : Str) (a b rest : Str)
    (h : findallNumRangesStep atStart s = some (a, b, rest)) :
    IsDigitGroup a ∧ IsDigitGroup b := by
  unfold findallNumRangesStep at h
  split at h
  · rename_i r heq
    injection h with h2
    subst h2
    split at heq
    · exact matchRangeAfterLead_spec _ _ _ _ heq
    · exact absurd heq (by simp)
  · split at h
    · exact absurd h (by simp)
    · split at h
      · exact matchRangeAfterLead_spec _ _ _ _ h
      · exact absurd h (by simp)

theorem findallNumRanges_spec :
    ∀ fuel atStart s, ∀ p ∈ findallNumRangesGo fuel atStart s,
      IsDigitGroup p.1 ∧ IsDigitGroup p.2 := by
  intro fuel
  induction fuel with
  | zero => intro b s p h; simp [findallNumRangesGo] at h
  | succ n ih =>
    intro b s p h
    rw [findallNumRangesGo_succ] at h
    split at h
    · rename_i d1 d2 rest heq
      rcases List.mem_cons.mp h with rfl | hmem
      · exact findallNumRangesStep_spec _ _ _ _ _ heq
      · exact ih _ _ _ hmem
    · simp at h
    · exact ih _ _ _ h

theorem matchDashRangeAt_spec (prev : Option Char) (s : Str) (a b rest : Str)
    (h : matchDashRangeAt prev s = some (a, b, rest)) :
    IsDigitGroup a ∧ IsDigitGroup b := by
  unfold matchDashRangeAt at h
  dsimp only at h
  split at h
  · exact absurd h (by simp)
  · split at h
    · exact absurd h (by simp)
    · rename_i hne1
      split at h
      · exact absurd h (by simp)
      · split at h
        · exact absurd h (by simp)
        · rename_i hne2
          split at h
          · simp only [Option.some.injEq, Prod.mk.injEq] at h
            obtain ⟨ha, hb, _⟩ := h
            exact ⟨ha ▸ ⟨hne1, takeWhile_all isDigitCh _⟩,
                   hb ▸ ⟨hne2, takeWhile_all isDigitCh _⟩⟩
          · split at h
            · exact absurd h (by simp)
            · simp only [Option.some.injEq, Prod.mk.injEq] at h
              obtain ⟨ha, hb, _⟩ := h
              exact ⟨ha ▸ ⟨hne1, takeWhile_all isDigitCh _⟩,
                     hb ▸ ⟨hne2, takeWhile_all isDigitCh _⟩⟩

theorem findallDashRanges_spec :
    ∀ fuel prev s, ∀ p ∈ findallDashRangesGo fuel prev s,
      IsDigitGroup p.1 ∧ IsDigitGroup p.2 := by
  intro fuel
  induction fuel with
  | zero => intro prev s p h; simp [findallDashRangesGo] at h
  | succ n ih =>
    intro prev s p h
    rw [findallDashRangesGo_succ] at h
    split at h
    · rename_i d1 d2 rest heq
      rcases List.mem_cons.mp h with rfl | hmem
      · exact matchDashRangeAt_spec _ _ _ _ _ heq
      · exact ih _ _ _ hmem
    · simp at h
    · exact ih _ _ _ h

theorem numSufDigitsK_spec (run rest : Str) (hne : run ≠ [])
    (hall : run.all isDigitCh = true) :
    ∀ k d, numSufDigitsK run rest k = some d → IsDigitGroup d := by
  intro k
  induction k with
  | zero => intro d h; simp [numSufDigitsK] at h
  | succ j ih =>
    intro d h
    rw [numSufDigitsK] at h
    try dsimp only at h
    split at h
    · injection h with h2
      subst h2
      constructor
      · simp [List.take_eq_nil_iff, hne]
      · exact List.all_eq_true.mpr fun x hx =>
          List.all_eq_true.mp hall x (List.mem_of_mem_take hx)
    · exact ih _ h

theorem matchNumSufAt_spec (prev : Option Char) (s : Str) (d : Str)
    (h : matchNumSufAt prev s = some d) : IsDigitGroup d := by
  unfold matchNumSufAt at h
  try dsimp only at h
  split at h
  · exact absurd h (by simp)
  · split at h
    · exact absurd h (by simp)
    · rename_i hne
      exact numSufDigitsK_spec _ _ hne (takeWhile_all isDigitCh s) _ _ h

theorem searchNumSuf_spec :
    ∀ fuel prev s d, searchNumSufGo fuel prev s = some d → IsDigitGroup d := by
  intro fuel
  induction fuel with
  | zero => intro prev s d h; simp [searchNumSufGo] at h
  | succ n ih =>
    intro prev s d h
    rw [searchNumSufGo_succ] at h
    split at h
    · rename_i heq
      injection h with h2
      exact h2 ▸ matchNumSufAt_spec _ _ _ heq
    · exact absurd h (by simp)
    · exact ih _ _ _ h

theorem searchNumSuf_group_spec (q d : Str) (h : searchNumSuf q = some d) :
    IsDigitGroup d := by
  unfold searchNumSuf at h
  exact searchNumSuf_spec _ _ _ _ h

theorem digit_runs_pyInt_ok (q : Str) :
    ∀ d ∈ findallClassRuns isDigitCh q, ∃ n, pyInt d = .ok n := by
  intro d hd
  have hgp := findallClassRuns_digit_spec (q.length + 1) q d
    (by simpa [findallClassRuns] using hd)
  exact pyInt_ok_of_digits d hgp.1 hgp.2

theorem extractStageI_total (q : Str) (maxN : Option Int) :
    ∃ v, extractStageI q maxN = .ok v := by
  unfold extractStageI
  split
  · rename_i d heq
    have hd := searchNumSuf_group_spec q d heq
    obtain ⟨n, hn⟩ := pyInt_ok_of_digits d hd.1 hd.2
    split
    · simp only [hn, bind, Except.bind]
      split
      · split
        · exact ⟨_, rfl⟩
        · exact ⟨_, rfl⟩
      · exact ⟨_, rfl⟩
    · exact ⟨_, rfl⟩
  · exact ⟨_, rfl⟩

theorem extractStageH_total (q : Str) (maxN : Option Int) :
    ∃ v, extractStageH q maxN = .ok v := by
  unfold extractStageH
  split
  · obtain ⟨nums, hnums⟩ :=
      mapM_ok_of_forall pyInt (findallClassRuns isDigitCh q) (digit_runs_pyInt_ok q)
    simp only [List.mapM] at hnums
    exact ⟨filterInRange maxN (dedupeInts nums),
      by simp [List.mapM, hnums, bind, Except.bind, pure, Except.pure]⟩
  · exact extractStageI_total q maxN

theorem extractStageG_total (q : Str) (maxN : Option Int) :
    ∃ v, extractStageG q maxN = .ok v := by
  unfold extractStageG
  split
  · split
    · split
      · rename_i d heq
        have hd := searchNumSuf_group_spec q d heq
        obtain ⟨n, hn⟩ := pyInt_ok_of_digits d hd.1 hd.2
        simp only [hn, bind, Except.bind]
        split
        · exact ⟨_, rfl⟩
        · exact ⟨_, rfl⟩
      · exact ⟨_, rfl⟩
    · exact extractStageH_total q _
  · exact extractStageH_total q _

theorem extractStageF_total (q : Str) (maxN : Option Int) :
    ∃ v, extractStageF q maxN = .ok v := by
  unfold extractStageF
  try dsimp only
  split
  · split
    · split
      · exact ⟨_, rfl⟩
      · exact extractStageG_total q _
    · exact extractStageG_total q _
  · exact extractStageG_total q _

theorem extractStageE_total (q : Str) (maxN : Option Int) (allow listRef : Bool) :
    ∃ v, extractStageE q maxN allow listRef = .ok v := by
  unfold extractStageE
  try dsimp only
  split
  · obtain ⟨digits, hdig⟩ :=
      mapM_ok_of_forall pyInt (findallClassRuns isDigitCh q) (digit_runs_pyInt_ok q)
    simp only [List.mapM] at hdig
    simp only [List.mapM, hdig, bind, Except.bind]
    split
    · exact ⟨_, rfl⟩
    · exact extractStageF_total q maxN
  · exact extractStageF_total q maxN

theorem extractStageD_total (q : Str) (maxN : Option Int) (allow listRef : Bool) :
    ∃ v, extractStageD q maxN allow listRef = .ok v := by
  unfold extractStageD
  try dsimp only
  split
  · obtain ⟨nums, hnums⟩ :=
      mapM_ok_of_forall pyInt (findallClassRuns isDigitCh q) (digit_runs_pyInt_ok q)
    simp only [List.mapM] at hnums
    exact ⟨filterInRange maxN (dedupeInts nums),
      by simp [List.mapM, hnums, bind, Except.bind, pure, Except.pure]⟩
  · exact extractStageE_total q maxN allow listRef

theorem extractStageC_total (q : Str) (maxN : Option Int) (allow listRef : Bool) :
    ∃ v, extractStageC q maxN allow listRef = .ok v := by
  unfold extractStageC
  try dsimp only
  split
  · obtain ⟨pairs, hpairs⟩ := mapM_ok_of_forall
      (fun p => do
        let a ← positionTokenToInt p.1
        let b ← positionTokenToInt p.2
        pure (a, b))
      (findallWordRanges q)
      (fun p _ => by
        obtain ⟨a, ha⟩ := positionTokenToInt_total p.1
        obtain ⟨b, hb⟩ := positionTokenToInt_total p.2
        exact ⟨(a, b), by simp [ha, hb, bind, Except.bind, pure, Except.pure]⟩)
    simp only [List.mapM] at hpairs
    simp only [bind, Except.bind] at hpairs
    simp only [List.mapM, bind, Except.bind, hpairs]
    split
    · exact ⟨_, rfl⟩
    · exact extractStageD_total q maxN allow listRef
  · exact extractStageD_total q maxN allow listRef

theorem extractStageB_total (q : Str) (maxN : Option Int) :
    ∃ v, extractStageB q maxN = .ok v := by
  unfold extractStageB
  dsimp only
  split
  · obtain ⟨expanded, hexp⟩ :=
      mapM_ok_of_forall
      (fun p => do
        let a ← pyInt p.1
        let b ← pyInt p.2
        pure (expandRange a b))
      (findallNumRanges q ++ findallDashRanges q)
      (fun p hp => by
        have hgp : IsDigitGroup p.1 ∧ IsDigitGroup p.2 := by
          rcases List.mem_append.mp hp with hp1 | hp2
          · exact findallNumRanges_spec _ _ _ _ (by simpa [findallNumRanges] using hp1)
          · exact findallDashRanges_spec _ _ _ _ (by simpa [findallDashRanges] using hp2)
        obtain ⟨a, ha⟩ := pyInt_ok_of_digits p.1 hgp.1.1 hgp.1.2
        obtain ⟨b, hb⟩ := pyInt_ok_of_digits p.2 hgp.2.1 hgp.2.2
        exact ⟨expandRange a b, by simp [ha, hb, bind, Except.bind, pure, Except.pure]⟩)
    simp only [List.mapM] at hexp
    simp only [bind, Except.bind] at hexp
    simp only [List.mapM, bind, Except.bind, hexp]
    split
    · split
      · exact ⟨_, rfl⟩
      · exact extractStageC_total q maxN _ _
    · exact extractStageC_total q maxN _ _
  · exact extractStageC_total q maxN _ _

theorem extractStageAFirst_total (q : Str) (mx : Int) :
    ∃ v, extractStageAFirst q mx = .ok v := by
  unfold extractStageAFirst
  split
  · rename_i g heq
    obtain ⟨n?, hn⟩ := countTokenToInt_total g
    simp only [hn, bind, Except.bind]
    split
    · split
      · exact ⟨_, rfl⟩
      · exact ⟨_, rfl⟩
    · exact ⟨_, rfl⟩
  · exact ⟨_, rfl⟩

theorem extractStageALast_total (q : Str) (mx : Int) :
    ∃ v, extractStageALast q mx = .ok v := by
  unfold extractStageALast
  split
  · rename_i g heq
    obtain ⟨n?, hn⟩ := countTokenToInt_total g
    simp only [hn, bind, Except.bind]
    split
    · split
      · exact ⟨_, rfl⟩
      · exact ⟨_, rfl⟩
    · exact ⟨_, rfl⟩
  · exact ⟨_, rfl⟩

/-- C6: the reference resolver is total — for every utterance string and
every bound argument (`None`, zero or negative included) it returns a
position list; the embedded Python `int()` conversions can never raise
because every regex digit group they receive is a non-empty all-digit
string, and an utterance matching none of the rules returns the empty list
through the final fallback (the `return []` at assistant.py:720, exercised
by the last sample of `C5_sample_equations`). -/
theorem C6_resolver_total (text : Str) (maxCount : Option Int) :
    ∃ v, extractPositionRefs text maxCount = .ok v := by
  unfold extractPositionRefs
  dsimp only
  split
  · exact ⟨_, rfl⟩
  · split
    · split
      · exact ⟨_, rfl⟩
      · exact ⟨_, rfl⟩
    · split
      · rename_i mx hmx
        obtain ⟨r1, h1⟩ := extractStageAFirst_total (normalizeText text) mx
        obtain ⟨r2, h2⟩ := extractStageALast_total (normalizeText text) mx
        obtain ⟨v3, h3⟩ := extractStageB_total (normalizeText text) (some mx)
        cases r1 with
        | some r => exact ⟨r, by simp [h1, bind, Except.bind, pure, Except.pure]⟩
        | none =>
          cases r2 with
          | some r => exact ⟨r, by simp [h1, h2, bind, Except.bind, pure, Except.pure]⟩
          | none =>
            exact ⟨v3, by simp [h1, h2, hmx, h3, bind, Except.bind, pure, Except.pure]⟩
      · exact extractStageB_total _ _

/-! ## assistant.py — candidate normalizer (claim C7) -/

/-- A raw result row / candidate dictionary.  The fields are exactly the keys
the source reads (`wine_id`, `card_key`, `url`, `wine_name`, `title`,
`producer`, `harvest_year`, `region`); an absent key is `none`.
`harvest_year` is modelled as an optional string (its truthiness in the
source is emptiness). -/
structure Row where
  wine_id : Option Str := none
  card_key : Option Str := none
  url : Option Str := none
  wine_name : Option Str := none
  title : Option Str := none
  producer : Option Str := none
  harvest_year : Option Str := none
  region : Option Str := none
deriving DecidableEq, Repr

/-- The brief record returned by `WineDB.get_wine_brief` (db.py:162-179),
restricted to the fields `_normalize_candidate` reads. -/
structure Brief where
  card_key : Option Str := none
  wine_name : Option Str := none
  producer : Option Str := none
  harvest_year : Option Str := none
  region : Option Str := none
  url : Option Str := none
deriving DecidableEq, Repr

/-- Embeds `WineAssistant._normalize_candidate` (assistant.py:794-837).  The
storage collaborators `WineDB.resolve_wine_id_from_fields` and
`WineDB.get_wine_brief` are the function arguments `resolve` and `getBrief`.
A row yields a reference only when an id can be established; missing display
fields are backfilled from the brief record, including the in-place `region`
backfill of the source (which only affects the returned dictionary here). -/
def normalizeCandidate (resolve : Str → Option Str → Option Str → Option Str)
    (getBrief : Str → Option Brief) (row : Row) : Option Row :=
  let wineId0 := pyStrip (pyOr2 row.wine_id row.card_key)
  let url0 := pyStrip (pyOr1 row.url)
  let wineName0 := pyStrip (pyOr2 row.wine_name row.title)
  let producer0 := pyStrip (pyOr1 row.producer)
  let harvestYear0 := row.harvest_year
  let wineId1 := if wineId0 = [] ∧ url0 ≠ [] then url0 else wineId0
  let wineId2 :=
    if wineId1 = [] ∧ wineName0 ≠ [] then
      match resolve wineName0 (if producer0 ≠ [] then some producer0 else none)
          harvestYear0 with
      | some resolved => if resolved ≠ [] then resolved else wineId1
      | none => wineId1
    else wineId1
  if wineId2 = [] then none
  else
    match getBrief wineId2 with
    | some b =>
      let wineId3 := if pyTruthyOpt b.card_key then pyOr1 b.card_key else wineId2
      let wineName1 := if wineName0 = [] then pyStrip (pyOr1 b.wine_name) else wineName0
      let producer1 := if producer0 = [] then pyStrip (pyOr1 b.producer) else producer0
      let harvestYear1 := if !pyTruthyOpt harvestYear0 then b.harvest_year else harvestYear0
      let url1 := if url0 = [] then pyStrip (pyOr1 b.url) else url0
      let region1 := if !pyTruthyOpt row.region then b.region else row.region
      some { wine_id := some wineId3,
             wine_name := if wineName1 ≠ [] then some wineName1 else none,
             producer := if producer1 ≠ [] then some producer1 else none,
             harvest_year := harvestYear1,
             region := region1,
             url := if url1 ≠ [] then some url1 else none }
    | none =>
      some { wine_id := some wineId2,
             wine_name := if wineName0 ≠ [] then some wineName0 else none,
             producer := if producer0 ≠ [] then some producer0 else none,
             harvest_year := harvestYear0,
             region := row.region,
             url := if url0 ≠ [] then some url0 else none }

/-- The accumulation loop of `_extract_wine_candidates_from_rows`
(assistant.py:839-850): append each normalizable row, stopping after the
30th appended reference.  (The `isinstance(row, dict)` guard of the source is
the identity here since every modelled row is a dictionary.) -/
def extractCandidatesGo (norm : Row → Option Row) : List Row → List Row → List Row
  | [], out => out.reverse
  | r :: rest, out =>
    match norm r with
    | none => extractCandidatesGo norm rest out
    | some c =>
      if 30 ≤ (c :: out).length then (c :: out).reverse
      else extractCandidatesGo norm rest (c :: out)

/-- Embeds `WineAssistant._extract_wine_candidates_from_rows`
(assistant.py:839-850): scan at most the first 200 rows. -/
def extractWineCandidatesFromRows (resolve : Str → Option Str → Option Str → Option Str)
    (getBrief : Str → Option Brief) (rows : List Row) : List Row :=
  extractCandidatesGo (normalizeCandidate resolve getBrief) (rows.take 200) []

/-- The dedup loop of `_search_wine_candidates` (assistant.py:853-864):
normalize each row, drop empty ids and ids already seen. -/
def searchCandidatesGo (norm : Row → Option Row) : List Row → List Str → List Row
  | [], _ => []
  | r :: rest, seen =>
    match norm r with
    | none => searchCandidatesGo norm rest seen
    | some c =>
      if pyOr1 c.wine_id = [] ∨ seen.contains (pyOr1 c.wine_id) then
        searchCandidatesGo norm rest seen
      else c :: searchCandidatesGo norm rest (pyOr1 c.wine_id :: seen)

/-- Embeds `WineAssistant._search_wine_candidates` (assistant.py:852-864);
`WineDB.search_wines_by_text` is the collaborator argument `searchByText`. -/
def searchWineCandidates (resolve : Str → Option Str → Option Str → Option Str)
    (getBrief : Str → Option Brief) (searchByText : Str → Int → List Row)
    (reference : Str) (limit : Int) : List Row :=
  searchCandidatesGo (normalizeCandidate resolve getBrief)
    (searchByText reference limit) []

theorem extractCandidatesGo_cons (norm : Row → Option Row) (r : Row)
    (rest out : List Row) :
    extractCandidatesGo norm (r :: rest) out =
      (match norm r with
       | none => extractCandidatesGo norm rest out
       | some c =>
         if 30 ≤ (c :: out).length then (c :: out).reverse
         else extractCandidatesGo norm rest (c :: out)) := rfl

theorem extractCandidatesGo_eq (norm : Row → Option Row) :
    ∀ (l acc : List Row), acc.length < 30 →
      extractCandidatesGo norm l acc =
        acc.reverse ++ (l.filterMap norm).take (30 - acc.length) := by
  intro l
  induction l with
  | nil => intro acc _; simp [extractCandidatesGo]
  | cons r rest ih =>
    intro acc h
    rw [extractCandidatesGo_cons, List.filterMap_cons]
    cases hn : norm r with
    | none => simpa using ih acc h
    | some c =>
      dsimp only
      by_cases hlen : 30 ≤ (c :: acc).length
      · rw [if_pos hlen]
        simp only [List.length_cons] at hlen
        have hacc : acc.length = 29 := by omega
        have h30 : 30 - acc.length = 1 := by omega
        simp [hacc, h30]
      · rw [if_neg hlen]
        simp only [List.length_cons] at hlen
        rw [ih (c :: acc) (by simp only [List.length_cons]; omega)]
        have h1 : 30 - acc.length = (30 - (c :: acc).length) + 1 := by
          simp only [List.length_cons]; omega
        rw [h1, List.take_succ_cons]
        simp

/-- C7 (counterexample): the batch entry point does NOT keep only the first
occurrence of a duplicated id — two identical rows with id `dup-wine` yield
two references with the same id; the first-occurrence-wins dedup of the
source lives in `_search_wine_candidates`, not in the batch entry point. -/
theorem C7_dedup_counterexample :
    (extractWineCandidatesFromRows (fun _ _ _ => none) (fun _ => none)
        [{ wine_id := some (toStr "dup-wine") }, { wine_id := some (toStr "dup-wine") }]).map
      Row.wine_id = [some (toStr "dup-wine"), some (toStr "dup-wine")] := by
  decide

/-- C7 (amended): for every collaborator pair and every input row list, the
batch candidate-normalization entry point returns at most 30 item
references, examines at most the first 200 input rows, and preserves the
input order of the rows it keeps (its output is an order-preserving
sublist of the normalized first 200 rows); duplicate ids are NOT
deduplicated here. -/
theorem C7_batch_normalization (resolve : Str → Option Str → Option Str → Option Str)
    (getBrief : Str → Option Brief) (rows : List Row) :
    (extractWineCandidatesFromRows resolve getBrief rows).length ≤ 30 ∧
    extractWineCandidatesFromRows resolve getBrief rows =
      extractWineCandidatesFromRows resolve getBrief (rows.take 200) ∧
    (extractWineCandidatesFromRows resolve getBrief rows).Sublist
      ((rows.take 200).filterMap (normalizeCandidate resolve getBrief)) := by
  have hkey : extractWineCandidatesFromRows resolve getBrief rows =
      ((rows.take 200).filterMap (normalizeCandidate resolve getBrief)).take 30 := by
    unfold extractWineCandidatesFromRows
    rw [extractCandidatesGo_eq _ _ [] (by simp)]
    simp
  refine ⟨?_, ?_, ?_⟩
  · rw [hkey]
    exact le_trans (List.length_take_le _ _) (by norm_num)
  · rw [hkey]
    unfold extractWineCandidatesFromRows
    rw [extractCandidatesGo_eq _ _ [] (by simp)]
    simp [List.take_take]
  · rw [hkey]
    exact List.take_sublist _ _

/-! ## assistant.py — contextual record intent (claim C8) -/

/-- Embeds `WineAssistant._extract_record_intent` (assistant.py:733-739). -/
def extractRecordIntent (text : Str) : Option Str :=
  let q := normalizeText text
  if isSubstrOf (toStr "заметк") q then some (toStr "note")
  else if [toStr "лайк", toStr "нравится", toStr "понравил", toStr "отметь",
           toStr "отметк", toStr "отметка"].any (fun m => isSubstrOf m q) then
    some (toStr "like")
  else none

/-- Embeds `WineAssistant._is_explicit_record_action` (assistant.py:741-755). -/
def isExplicitRecordAction (text : Str) : Bool :=
  let q := normalizeText text
  ([toStr "постав", toStr "добав", toStr "сдела", toStr "созда",
    toStr "сохрани", toStr "запиши", toStr "отметь",
    toStr "лайкни"].any (fun m => isSubstrOf m q)) &&
  ([toStr "лайк", toStr "заметк", toStr "отметк"].any (fun m => isSubstrOf m q))

/-- The `(.+)$` tail of the note/reference patterns at the head of `seg`:
`.` does not cross a newline and `$` matches at the end of input or before a
single final newline. -/
def dollarTailAt (seg : Str) : Option Str :=
  let candidate := seg.takeWhile (fun c => !(c = '\n'))
  if candidate = [] then none
  else
    match seg.drop candidate.length with
    | [] => some candidate
    | ['\n'] => some candidate
    | _ => none

/-- Backtrack the greedy `\s+` before the `(.+)$` tail from `j` consumed
space characters down to one. -/
def noteTailFromSpaces (rest : Str) : Nat → Option Str
  | 0 => none
  | j + 1 =>
    match dollarTailAt (rest.drop (j + 1)) with
    | some g => some g
    | none => noteTailFromSpaces rest j

/-- One literal alternative of the note-content pattern at the current
position: the lower-cased input carries the `re.IGNORECASE` comparison, the
group is taken from the original input. -/
def matchNoteOne (lit : Str) (lowS origS : Str) : Option Str :=
  if lit.isPrefixOf lowS then
    noteTailFromSpaces (origS.drop lit.length)
      ((origS.drop lit.length).takeWhile pyIsSpace).length
  else none

/-- Generic leftmost scan over the (lower-cased, original) input pair for a
position matcher `f`. -/
def searchPairGo (f : Str → Str → Option Str) : Nat → Str → Str → Option Str
  | 0, _, _ => none
  | fuel + 1, lowS, origS =>
    match f lowS origS, lowS, origS with
    | some g, _, _ => some g
    | none, [], _ => none
    | none, _ :: _, [] => none
    | none, _ :: lrest, _ :: orest => searchPairGo f fuel lrest orest

/-- The alternation `(?:текст заметки|заметка)` at a position. -/
def matchNoteLitAt (lowS origS : Str) : Option Str :=
  match matchNoteOne (toStr "текст заметки") lowS origS with
  | some g => some g
  | none => matchNoteOne (toStr "заметка") lowS origS

/-- Embeds `re.search(r"(?:текст заметки|заметка)\s+(.+)$", raw, re.IGNORECASE)`
(assistant.py:763) returning the first group. -/
def searchNoteContent (raw : Str) : Option Str :=
  searchPairGo matchNoteLitAt (raw.length + 1) (pyLower raw) raw

/-- The regex part of `_extract_note_content`: a matched group is stripped;
an all-whitespace group yields `None` without further scanning. -/
def noteRegexContent (raw : Str) : Option Str :=
  match searchNoteContent raw with
  | some g => if pyStrip g ≠ [] then some (pyStrip g) else none
  | none => none

/-- Python `s.split(c, 1)[1]` (empty when no separator occurs). -/
def splitFirstTail (c : Char) (s : Str) : Str :=
  (s.dropWhile (fun d => !(d = c))).drop 1

/-- Embeds `WineAssistant._extract_note_content` (assistant.py:757-768):
text after the first colon when non-empty, else the worded note pattern. -/
def extractNoteContent (text : Str) : Option Str :=
  let raw := pyStrip text
  if raw.contains ':' then
    (if pyStrip (splitFirstTail ':' raw) ≠ [] then
      some (pyStrip (splitFirstTail ':' raw))
    else noteRegexContent raw)
  else noteRegexContent raw

/-- The `у?\s+(.+)$` tail after the literal `вин` of the wine-reference
patterns, the optional `у` tried greedily first. -/
def vinuTail (lowS origS : Str) : Option Str :=
  match (if (toStr "у").isPrefixOf lowS then
           noteTailFromSpaces (origS.drop 1)
             ((origS.drop 1).takeWhile pyIsSpace).length
         else none) with
  | some g => some g
  | none => noteTailFromSpaces origS (origS.takeWhile pyIsSpace).length

/-- One lead alternative `(?:для|к)\s*вину?` of the first wine-reference
pattern at a position. -/
def matchWineRef1Lead (lead : Str) (lowS origS : Str) : Option Str :=
  if lead.isPrefixOf lowS then
    (let low1 := lowS.drop lead.length
     let k := (low1.takeWhile pyIsSpace).length
     if (toStr "вин").isPrefixOf (low1.drop k) then
       vinuTail ((low1.drop k).drop 3) (((origS.drop lead.length).drop k).drop 3)
     else none)
  else none

/-- `(?:для|к)\s*вину?\s+(.+)$` at a position (assistant.py:774). -/
def matchWineRef1At (lowS origS : Str) : Option Str :=
  match matchWineRef1Lead (toStr "для") lowS origS with
  | some g => some g
  | none => matchWineRef1Lead (toStr "к") lowS origS

/-- `вину?\s+(.+)$` at a position (assistant.py:775). -/
def matchWineRef2At (lowS origS : Str) : Option Str :=
  if (toStr "вин").isPrefixOf lowS then vinuTail (lowS.drop 3) (origS.drop 3)
  else none

/-- `вина\s+(.+)$` at a position (assistant.py:776). -/
def matchWineRef3At (lowS origS : Str) : Option Str :=
  if (toStr "вина").isPrefixOf lowS then
    noteTailFromSpaces (origS.drop 4) ((origS.drop 4).takeWhile pyIsSpace).length
  else none

/-- `m.group(1).strip().strip(QUOTE).strip(APOSTROPHE)`, empty results
rejected. -/
def wineRefClean (g : Str) : Option Str :=
  let ref := pyStripChars ['\x27'] (pyStripChars ['"'] (pyStrip g))
  if ref ≠ [] then some ref else none

/-- Embeds `WineAssistant._extract_wine_reference` (assistant.py:770-784):
the text before the first colon is searched with the three patterns in
order; a matched group cleans to a non-empty reference or the next pattern
is tried. -/
def extractWineReference (text : Str) : Option Str :=
  let raw := pyStrip text
  let beforeColon := pyStrip (raw.takeWhile (fun d => !(d = ':')))
  match (match searchPairGo matchWineRef1At (beforeColon.length + 1)
            (pyLower beforeColon) beforeColon with
         | some g => wineRefClean g
         | none => none) with
  | some r => some r
  | none =>
    match (match searchPairGo matchWineRef2At (beforeColon.length + 1)
              (pyLower beforeColon) beforeColon with
           | some g => wineRefClean g
           | none => none) with
    | some r => some r
    | none =>
      match searchPairGo matchWineRef3At (beforeColon.length + 1)
          (pyLower beforeColon) beforeColon with
      | some g => wineRefClean g
      | none => none

/-- Decimal rendering of a natural number for the f-string interpolations. -/
def natToStr (n : Nat) : Str := (toString n).toList

/-- Embeds `WineAssistant._format_wine_label` (assistant.py:786-792). -/
def formatWineLabel (item : Row) : Str :=
  let name := pyStrip (pyOr2 item.wine_name item.title)
  let producer := pyStrip (pyOr1 item.producer)
  let year := pyStrip (pyOr1 item.harvest_year)
  let parts := [name, producer, year].filter (fun p => decide (p ≠ []))
  if parts = [] then toStr "Без названия"
  else List.intercalate (toStr ", ") parts

/-- A pending record action carried in the per-session context
(the `pending_record_action` dictionary of app.py / assistant.py); absent
keys are `none`. -/
structure Pending where
  record_type : Option Str := none
  content : Option Str := none
  reference : Option Str := none
  candidates : Option (List Row) := none
  selected : Option Row := none
  selected_list : Option (List Row) := none
deriving DecidableEq, Repr

/-- The per-session context state of app.py (`CONTEXT_STORE` entry,
app.py:69-77). -/
structure CtxState where
  last_wine_candidates : List Row := []
  pending_record_action : Option Pending := none
deriving DecidableEq, Repr

/-- One `public_record_ops` entry of the handler metadata. -/
structure RecordOp where
  op : Str
  ok : Bool
  records : List PublicRecord := []
  errors : List Str := []
deriving DecidableEq, Repr

/-- The metadata dictionary returned with a handler answer, restricted to
the keys the handler and `_update_context_state_from_meta` exchange; a key
the handler does not set is its default. -/
structure Meta where
  sql : Option Str := none
  rows : Int := 0
  model : Str := []
  public_record_ops : List RecordOp := []
  set_pending_record_action : Option Pending := none
  clear_pending_record_action : Bool := false
  wine_context_candidates : Option (List Row) := none
deriving DecidableEq, Repr

/-- Embeds `_update_context_state_from_meta` (app.py:79-102): refresh the
candidate list when the metadata carries a non-empty one (capped at 30),
clear the pending action when asked, then install a newly set pending
action. -/
def updateContextStateFromMeta (state : CtxState) (meta : Meta) : CtxState :=
  let state :=
    match meta.wine_context_candidates with
    | some cs => if cs ≠ [] then { state with last_wine_candidates := cs.take 30 } else state
    | none => state
  let state :=
    if meta.clear_pending_record_action then
      { state with pending_record_action := none }
    else state
  match meta.set_pending_record_action with
  | some p => { state with pending_record_action := some p }
  | none => state

/-- Embeds `WineAssistant._format_candidates_prompt` (assistant.py:867-881). -/
def formatCandidatesPrompt (candidates : List Row) (recordType : Str)
    (noteContent : Option Str) : Str :=
  let action := if recordType = toStr "note" then toStr "заметки" else toStr "лайка"
  let header := toStr "Найдено несколько вариантов для " ++ action ++
    toStr ". Выберите номер позиции:"
  let numbered := candidates.enum.map (fun pr =>
    natToStr (pr.1 + 1) ++ toStr ". " ++ formatWineLabel pr.2)
  let lines := header :: numbered
  let lines :=
    if recordType = toStr "note" ∧ pyTruthyOpt noteContent then
      lines ++ [toStr "Текст заметки уже сохранен в контексте и будет применен после выбора позиции."]
    else lines
  List.intercalate (toStr "\n") (lines ++ [toStr "Ответьте числом, например: 1"])

/-- Embeds `WineAssistant._build_record_saved_answer` (assistant.py:883-892). -/
def buildRecordSavedAnswer (recordType : Str) (candidate : Row)
    (content : Option Str) : Str :=
  let label := formatWineLabel candidate
  if recordType = toStr "like" then
    toStr "Лайк сохранен для вина: " ++ label ++ toStr "."
  else
    toStr "Заметка сохранена для вина: " ++ label ++
    toStr ".\nТекст заметки: " ++ pyOr1 content

/-- The dedup loop over the selected candidates
(assistant.py:1156-1170): returns the unique list and the duplicate count. -/
def dedupSelectedGo : List Row → List Str → Nat → (List Row × Nat)
  | [], _, dup => ([], dup)
  | c :: rest, seen, dup =>
    if pyStrip (pyOr1 c.wine_id) = [] then dedupSelectedGo rest seen dup
    else if seen.contains (pyStrip (pyOr1 c.wine_id)) then
      dedupSelectedGo rest seen (dup + 1)
    else
      (c :: (dedupSelectedGo rest (pyStrip (pyOr1 c.wine_id) :: seen) dup).1,
       (dedupSelectedGo rest (pyStrip (pyOr1 c.wine_id) :: seen) dup).2)

/-- Entry point of the selected-candidates dedup. -/
def dedupSelected (l : List Row) : List Row × Nat := dedupSelectedGo l [] 0

/-- `", ".join(str(x) for x in bad)`. -/
def intListJoin (l : List Int) : Str :=
  List.intercalate (toStr ", ") (l.map intToStr)

/-- Embeds `WineAssistant._handle_contextual_record_intent`
(assistant.py:1005-1252).  The collaborators are arguments: `hasRecordsDb`
models `self.records_db is None`, `wineExists` the annotation store's
catalog check (through `addRecord`), `resolve`/`getBrief`/`searchByText` the
storage collaborator, `modelName` the `self.model` string.  The position
branch and the free-text branch are computed into a sum (`inl` = an early
answer, `inr` = the selected candidate and list) to express the source's
early returns; everything after mirrors the source line by line. -/
def handleContextualRecordIntent
    (hasRecordsDb : Bool) (wineExists : Str → Bool)
    (resolve : Str → Option Str → Option Str → Option Str)
    (getBrief : Str → Option Brief) (searchByText : Str → Int → List Row)
    (modelName : Str) (userText : Str) (publicUser : Option Str)
    (recordContext : Option CtxState) :
    Except String (Option (Str × Meta)) := do
  if !hasRecordsDb then return none
  let context := recordContext.getD {}
  let pending := context.pending_record_action
  let intent := extractRecordIntent userText
  if intent = none ∧ pending = none then return none
  if intent.isSome ∧ pending = none ∧ !isExplicitRecordAction userText then
    return none
  let recordType :=
    match intent with
    | some t => t
    | none => pyStrip (pyOr1 (pending.bind Pending.record_type))
  if !(recordType = toStr "like" ∨ recordType = toStr "note") then return none
  let sourceCandidates : List Row :=
    match pending with
    | some p =>
      match p.candidates with
      | some cs => cs
      | none => context.last_wine_candidates
    | none => context.last_wine_candidates
  let posList ← extractPositionRefs userText
    (if sourceCandidates ≠ [] then some (Int.ofNat sourceCandidates.length) else none)
  let hasListRef := hasListReferencePhrase (normalizeText userText)
  let isAllRef := isAllPositionsPhrase (normalizeText userText)
  let noteContent0 := extractNoteContent userText
  let noteContent :=
    if noteContent0 = none ∧ pending.isSome ∧ recordType = toStr "note" then
      (if pyStrip (pyOr1 (pending.bind Pending.content)) ≠ [] then
        some (pyStrip (pyOr1 (pending.bind Pending.content)))
      else none)
    else noteContent0
  let branch : Sum (Option (Str × Meta)) (Option Row × List Row) :=
    if posList ≠ [] ∨ hasListRef ∨ isAllRef then
      (if sourceCandidates = [] then
        Sum.inl (some (toStr "Не найден контекст списка вин. Сначала запросите список вин, затем укажите номер позиции.",
          { model := modelName }))
      else
        let posList2 :=
          if posList = [] ∧ isAllRef then
            rangeFromTo 1 (Int.ofNat sourceCandidates.length + 1)
          else posList
        if posList2 = [] ∧ hasListRef then
          Sum.inl (some (toStr "Не удалось определить позиции из запроса. Укажите номера явно, например: 1,2 или с 3 по 5.",
            { model := modelName }))
        else
          let bad := posList2.filter (fun p =>
            decide (p < 1) || decide (Int.ofNat sourceCandidates.length < p))
          if bad ≠ [] then
            Sum.inl (some (toStr "Позиции " ++ intListJoin bad ++
              toStr " вне диапазона 1.." ++ natToStr sourceCandidates.length ++
              toStr ". Укажите корректные номера.",
              { model := modelName }))
          else
            let selectedList := posList2.filterMap (fun p =>
              match sourceCandidates.get? (p - 1).toNat with
              | some r => normalizeCandidate resolve getBrief r
              | none => none)
            Sum.inr (selectedList.head?, selectedList))
    else
      let reference :=
        match extractWineReference userText with
        | some r => some r
        | none =>
          if pending.isSome ∧ pyStrip (pyOr1 (pending.bind Pending.reference)) ≠ [] then
            some (pyStrip (pyOr1 (pending.bind Pending.reference)))
          else none
      match reference with
      | some r =>
        let candidates := searchWineCandidates resolve getBrief searchByText r 7
        if candidates.length = 1 then
          Sum.inr (candidates.head?, candidates)
        else if 1 < candidates.length then
          Sum.inl (some (formatCandidatesPrompt candidates recordType noteContent,
            { model := modelName,
              set_pending_record_action := some
                { record_type := some recordType, content := noteContent,
                  reference := some r, candidates := some candidates } }))
        else
          Sum.inl (some (toStr "Не удалось однозначно найти вино по названию. Уточните название или сначала получите список вин.",
            { model := modelName }))
      | none => Sum.inr (none, [])
  match branch with
  | Sum.inl out => return out
  | Sum.inr (selected0, selectedList0) =>
    let selectedList1 :=
      if selectedList0 = [] then
        (match selected0 with
         | some s => [s]
         | none => selectedList0)
      else selectedList0
    let selectedList2 :=
      if selectedList1 = [] then
        (match pending with
         | some p =>
           match p.selected_list with
           | some l => l
           | none => selectedList1
         | none => selectedList1)
      else selectedList1
    let selected1 :=
      match selected0 with
      | some s => some s
      | none =>
        match pending with
        | some p =>
          match p.selected with
          | some srow => normalizeCandidate resolve getBrief srow
          | none => none
        | none => none
    let selected2 :=
      match selected1 with
      | some s => some s
      | none => selectedList2.head?
    match selected2 with
    | none => return none
    | some _ =>
      if selectedList2.filter (fun c => decide (pyStrip (pyOr1 c.wine_id) = [])) ≠ [] then
        return some (toStr "Не удалось определить идентификатор одного из выбранных вин. Уточните запрос.",
          { model := modelName })
      let uniqueList := (dedupSelected selectedList2).1
      let dupCount := (dedupSelected selectedList2).2
      let selectedList3 := if uniqueList ≠ [] then uniqueList else selectedList2
      let selected3 := if uniqueList ≠ [] then uniqueList.head? else selected2
      if recordType = toStr "note" ∧ noteContent = none then
        return some (toStr "Определены вина: " ++
          (if selectedList3.length = 1 then
            formatWineLabel (selected3.getD {})
          else
            List.intercalate (toStr ", ") ((selectedList3.take 3).map formatWineLabel) ++
            (if 3 < selectedList3.length then
              toStr " и ещё " ++ natToStr (selectedList3.length - 3)
            else [])) ++
          toStr ". Теперь укажите текст заметки в формате:\nзаметка для выбранного вина: <текст>",
          { model := modelName,
            set_pending_record_action := some
              { record_type := some (toStr "note"), selected := selected3,
                selected_list := some selectedList3, content := none } })
      let results := selectedList3.map (fun cand =>
        (cand, addRecord wineExists publicUser recordType
          (if recordType = toStr "note" then noteContent else none)
          (pyStrip (pyOr1 cand.wine_id))))
      let saved := results.filterMap (fun pr =>
        match pr.2 with
        | .ok rec => some rec
        | .error _ => none)
      let errors := results.filterMap (fun pr =>
        match pr.2 with
        | .error e => some (formatWineLabel pr.1 ++ toStr ": " ++ PublicRecordError.message e)
        | .ok _ => none)
      if saved = [] then
        return some (toStr "Не удалось сохранить отметки. " ++
          (if errors ≠ [] then List.intercalate (toStr "; ") (errors.take 3) else []),
          { model := modelName })
      let answer :=
        if saved.length = 1 then
          buildRecordSavedAnswer recordType (selectedList3.headD {}) noteContent
        else
          let action :=
            if recordType = toStr "like" then toStr "Лайк сохранён"
            else toStr "Заметка сохранена"
          let lines := [action ++ toStr " для " ++ natToStr saved.length ++ toStr " вин:"]
          let lines := lines ++ (selectedList3.take 5).enum.map (fun pr =>
            natToStr (pr.1 + 1) ++ toStr ". " ++ formatWineLabel pr.2)
          let lines :=
            if 5 < selectedList3.length then
              lines ++ [toStr "... и ещё " ++ natToStr (selectedList3.length - 5)]
            else lines
          let lines :=
            if recordType = toStr "note" then
              lines ++ [toStr "Текст заметки: " ++ pyOr1 noteContent]
            else lines
          let lines :=
            if errors ≠ [] then
              lines ++ [toStr "Часть записей не сохранена: " ++
                List.intercalate (toStr "; ") (errors.take 2)]
            else lines
          List.intercalate (toStr "\n") lines
      let answer :=
        if 0 < dupCount then
          answer ++ toStr "\nПримечание: среди выбранных позиций были дубликаты одной и той же карточки, сохранены только уникальные записи."
        else answer
      return some (answer,
        { model := modelName,
          public_record_ops := [{ op := toStr "contextual_add_public_record",
                                  ok := true, records := saved, errors := errors }],
          clear_pending_record_action := true })

/-! ### Claim C8 -/

/-- C8: with a Pending Action of type `like` holding multiple candidates in
the session context, when the next utterance carries no fresh record intent
and resolves to exactly one in-range position whose candidate normalizes to
a reference with a non-empty id, and the annotation store accepts the
record, the contextual handler resolves to exactly that one target: it
persists exactly one annotation record (the one for the selected
candidate), returns metadata that clears the Pending Action and sets no new
one, and applying that metadata to any session state leaves the pending
state empty. -/
theorem C8_contextual_position_resolution
    (wineExists : Str → Bool) (resolve : Str → Option Str → Option Str → Option Str)
    (getBrief : Str → Option Brief) (searchByText : Str → Int → List Row)
    (modelName : Str) (userText : Str) (publicUser : Option Str)
    (ctx : CtxState) (pd : Pending) (cands : List Row) (p : Int)
    (targetRow sel : Row) (rec : PublicRecord)
    (hctx : ctx.pending_record_action = some pd)
    (hrt : pd.record_type = some (toStr "like"))
    (hcands : pd.candidates = some cands)
    (hlen : 2 ≤ cands.length)
    (hintent : extractRecordIntent userText = none)
    (hpos : extractPositionRefs userText (some (Int.ofNat cands.length)) = .ok [p])
    (hp1 : 1 ≤ p) (hp2 : p ≤ Int.ofNat cands.length)
    (hrow : cands.get? (p - 1).toNat = some targetRow)
    (hnorm : normalizeCandidate resolve getBrief targetRow = some sel)
    (hsid : pyStrip (pyOr1 sel.wine_id) ≠ [])
    (hadd : addRecord wineExists publicUser (toStr "like") none
      (pyStrip (pyOr1 sel.wine_id)) = .ok rec) :
    ∃ answer meta,
      handleContextualRecordIntent true wineExists resolve getBrief searchByText
        modelName userText publicUser (some ctx) = .ok (some (answer, meta)) ∧
      meta.public_record_ops =
        [{ op := toStr "contextual_add_public_record", ok := true,
           records := [rec], errors := [] }] ∧
      meta.clear_pending_record_action = true ∧
      meta.set_pending_record_action = none ∧
      ∀ st : CtxState, (updateContextStateFromMeta st meta).pending_record_action = none := by
  have hne : cands ≠ [] := by
    intro hc
    rw [hc] at hlen
    simp at hlen
  have hrt2 : pyStrip (pyOr1 pd.record_type) = toStr "like" := by
    rw [hrt]; decide
  have hln : ¬(toStr "like" = toStr "note") := by decide
  have hfilter : ([p] : List Int).filter
      (fun x => decide (x < 1) || decide (Int.ofNat cands.length < x)) = [] := by
    have hx : (decide (p < 1) || decide (Int.ofNat cands.length < p)) = false := by
      simp only [Bool.or_eq_false_iff, decide_eq_false_iff_not]
      omega
    simp only [List.filter_cons, List.filter_nil, hx, Bool.false_eq_true, if_false]
  have hsel : ([p] : List Int).filterMap (fun x =>
      match cands.get? (x - 1).toNat with
      | some r => normalizeCandidate resolve getBrief r
      | none => none) = [sel] := by
    simp only [List.filterMap_cons, List.filterMap_nil, hrow, hnorm]
  have hded : dedupSelected [sel] = ([sel], 0) := by
    simp [dedupSelected, dedupSelectedGo, hsid]
  refine ⟨buildRecordSavedAnswer (toStr "like") sel (extractNoteContent userText),
    { model := modelName,
      public_record_ops := [{ op := toStr "contextual_add_public_record", ok := true,
                              records := [rec], errors := [] }],
      clear_pending_record_action := true }, ?_, rfl, rfl, rfl, ?_⟩
  · have hbad : ([sel] : List Row).filter
        (fun c => decide (pyStrip (pyOr1 c.wine_id) = [])) = [] := by
      simp [hsid]
    unfold handleContextualRecordIntent
    simp only [Option.getD_some, hctx, hintent, Option.some_bind, hcands, hrt2,
      Option.isSome_none, Option.isSome_some, hne, hpos, hfilter, hsel, hbad,
      hded, hln, hadd, bind, Except.bind, pure, Except.pure,
      List.head?_cons, List.headD_cons, List.length_cons, List.length_nil,
      List.map_cons, List.map_nil, List.filterMap_cons, List.filterMap_nil,
      List.cons_ne_nil, Option.some_ne_none, ne_eq, eq_self_iff_true,
      not_true, not_false_iff, true_and, and_true, false_and, and_false,
      true_or, or_true, false_or, or_false, if_true, if_false, ite_true,
      ite_false, not_false_eq_true, not_true_eq_false, decide_True,
      Bool.not_true, Bool.false_eq_true, Nat.zero_add, lt_self_iff_false,
      reduceCtorEq]
  · intro st
    simp [updateContextStateFromMeta]

/-- Candidate rows, pending action, session context and expected stored
record of the C8 witness scenario: a pending `like` with two candidates and
the follow-up utterance `"2"`. -/
def c8Row1 : Row := { wine_id := some (toStr "w1") }

def c8Row2 : Row := { wine_id := some (toStr "w2") }

def c8Pending : Pending :=
  { record_type := some (toStr "like"), candidates := some [c8Row1, c8Row2] }

def c8Ctx : CtxState := { pending_record_action := some c8Pending }

def c8Sel : Row := { wine_id := some (toStr "w2") }

def c8Rec : PublicRecord :=
  { user := toStr "Гость", record_type := toStr "like", content := toStr "1",
    wine_id := toStr "w2" }

/-- Witness for C8: with the pending `like` over two candidates and the
utterance `"2"`, the handler saves exactly one record for the second
candidate and clears the pending action. -/
theorem C8_contextual_position_resolution_witness :
    ∃ answer meta,
      handleContextualRecordIntent true (fun _ => true) (fun _ _ _ => none)
        (fun _ => none) (fun _ _ => []) (toStr "model") (toStr "2") none
        (some c8Ctx) = .ok (some (answer, meta)) ∧
      meta.public_record_ops = [{ op := toStr "contextual_add_public_record", ok := true,
                                  records := [c8Rec], errors := [] }] ∧
      meta.clear_pending_record_action = true ∧
      meta.set_pending_record_action = none ∧
      ∀ st : CtxState, (updateContextStateFromMeta st meta).pending_record_action = none :=
  C8_contextual_position_resolution (fun _ => true) (fun _ _ _ => none) (fun _ => none)
    (fun _ _ => []) (toStr "model") (toStr "2") none c8Ctx c8Pending [c8Row1, c8Row2] 2
    c8Row2 c8Sel c8Rec rfl rfl rfl (by decide) (by decide) (by decide) (by decide)
    (by decide) (by decide) (by decide) (by decide) (by decide)

/-! ## assistant.py — tool-orchestration loop (claim C9) -/

/-- A tool invocation requested by the model in one round of
`WineAssistant.ask` (assistant.py:1553-1659), reduced to what controls the
loop: the `execute_sql` case carries whether the guarded execution succeeded
and the full row set (driving the force-full early return), the other tools
only append their structured results. -/
inductive WCToolCall
  | executeSql (ok : Bool) (rowsFull : List Row)
  | searchWeb
  | addPublicRecord
  | listPublicRecords
  | getWinePublicSummary
  | unknownTool (name : Str)
deriving DecidableEq

/-- One chat-completion message returned by the model backend: optional
direct content and the requested tool calls (`None` and the empty list
coincide under `if not msg.tool_calls`). -/
structure ModelMsg where
  content : Option Str := none
  tool_calls : List WCToolCall := []
deriving DecidableEq

/-- The first successful `execute_sql` call of a round, whose handling
returns immediately with the full enumeration when the caller requested an
unabridged listing (assistant.py:1574-1589). -/
def msgFullListRows (forceFull : Bool) (calls : List WCToolCall) : Option (List Row) :=
  if !forceFull then none
  else
    calls.findSome? (fun c =>
      match c with
      | .executeSql true rows => some rows
      | _ => none)

/-- `answer = msg.content or "Не удалось сформировать ответ."`
(assistant.py:1501). -/
def directAnswerText (content : Option Str) : Str :=
  match content with
  | some s => if s ≠ [] then s else toStr "Не удалось сформировать ответ."
  | none => toStr "Не удалось сформировать ответ."

/-- The round loop of `WineAssistant.ask` (assistant.py:1488-1676), embedded
over its collaborators: `oracle i` is the backend completion of round `i`
(the `client.chat.completions.create` call), `sanitize` is
`_sanitize_public_answer` and `formatFullList` is `_format_full_list_answer`
(pure string formatters whose content the claim does not constrain).  The
result pairs the final answer text with the number of backend rounds used
(the `llm_rounds` perf counter, incremented once per round).  A message with
no tool calls ends the turn with the sanitized direct answer; under a
force-full listing request the first successful `execute_sql` ends the turn
with the formatted enumeration; otherwise the loop continues, and
`remaining = 0` yields the fixed could-not-complete message. -/
def askToolLoopGo (forceFull : Bool) (oracle : Nat → ModelMsg)
    (sanitize : Str → Str) (formatFullList : List Row → Str) :
    Nat → Nat → Str × Nat
  | 0, used =>
    (toStr "Не удалось завершить обработку запроса за допустимое число шагов.", used)
  | remaining + 1, used =>
    let msg := oracle used
    if msg.tool_calls = [] then (sanitize (directAnswerText msg.content), used + 1)
    else
      match msgFullListRows forceFull msg.tool_calls with
      | some rows => (sanitize (formatFullList rows), used + 1)
      | none => askToolLoopGo forceFull oracle sanitize formatFullList remaining (used + 1)

/-- The `for _ in range(3)` entry of the model-driven loop
(assistant.py:1488). -/
def askToolLoop (forceFull : Bool) (oracle : Nat → ModelMsg)
    (sanitize : Str → Str) (formatFullList : List Row → Str) : Str × Nat :=
  askToolLoopGo forceFull oracle sanitize formatFullList 3 0

theorem askToolLoopGo_rounds (forceFull : Bool) (oracle : Nat → ModelMsg)
    (sanitize : Str → Str) (formatFullList : List Row → Str) :
    ∀ remaining used,
      (askToolLoopGo forceFull oracle sanitize formatFullList remaining used).2 ≤
        used + remaining := by
  intro remaining
  induction remaining with
  | zero => intro used; simp [askToolLoopGo]
  | succ n ih =>
    intro used
    rw [askToolLoopGo]
    try dsimp only
    split
    · simp
    · split
      · simp
      · calc (askToolLoopGo forceFull oracle sanitize formatFullList n (used + 1)).2 ≤
              (used + 1) + n := ih (used + 1)
          _ = used + (n + 1) := by omega

/-- C9: every turn that reaches the model-driven tool loop consults the
backend at most 3 times, and when all three rounds request further tool
calls without a terminal outcome (no direct answer, no force-full
`execute_sql` success), the loop ends with the fixed could-not-complete
message rather than looping further. -/
theorem C9_round_cap (forceFull : Bool) (oracle : Nat → ModelMsg)
    (sanitize : Str → Str) (formatFullList : List Row → Str) :
    (askToolLoop forceFull oracle sanitize formatFullList).2 ≤ 3 ∧
    ((∀ i, i < 3 → (oracle i).tool_calls ≠ [] ∧
        msgFullListRows forceFull (oracle i).tool_calls = none) →
      (askToolLoop forceFull oracle sanitize formatFullList).1 =
        toStr "Не удалось завершить обработку запроса за допустимое число шагов.") := by
  constructor
  · simpa using askToolLoopGo_rounds forceFull oracle sanitize formatFullList 3 0
  · intro h
    unfold askToolLoop
    rw [askToolLoopGo]
    try dsimp only
    rw [if_neg (h 0 (by omega)).1]
    rw [(h 0 (by omega)).2]
    rw [askToolLoopGo]
    try dsimp only
    rw [if_neg (h 1 (by omega)).1]
    rw [(h 1 (by omega)).2]
    rw [askToolLoopGo]
    try dsimp only
    rw [if_neg (h 2 (by omega)).1]
    rw [(h 2 (by omega)).2]
    rfl

/-- Witness for C9: an oracle that always requests a web search exhausts the
round cap and yields the fixed message with exactly 3 rounds used. -/
theorem C9_round_cap_witness :
    (askToolLoop false (fun _ => { tool_calls := [WCToolCall.searchWeb] })
        (fun s => s) (fun _ => [])).2 ≤ 3 ∧
    (askToolLoop false (fun _ => { tool_calls := [WCToolCall.searchWeb] })
        (fun s => s) (fun _ => [])).1 =
      toStr "Не удалось завершить обработку запроса за допустимое число шагов." := by
  have h := C9_round_cap false (fun _ => { tool_calls := [WCToolCall.searchWeb] })
    (fun s => s) (fun _ => [])
  exact ⟨h.1, h.2 (fun i _ => ⟨by decide, by decide⟩)⟩

end WineChat
